import Mathlib

/-!
A verification development for the core of the `radar` package (the current
`crimes.go`): CSV row ingestion, coordinate deduplication, kd-tree range
search and the hand-rolled JSON encoder.  Go `float64` values are modelled
as exact rationals for finite values, plus explicit NaN and infinity
constructors where non-finite behaviour matters (query points).  Binary
rounding is outside the model; every concrete value used below is exactly
representable.
-/

namespace Radar

open List

/-- A Go `float64` value: an exact rational for a finite value, plus the
three non-finite IEEE-754 values.  Signed zero is not modelled. -/
inductive GoFloat where
  | fin (q : ℚ)
  | nan
  | posInf
  | negInf
deriving DecidableEq, Repr

/-- IEEE-754 negation. -/
def GoFloat.neg : GoFloat → GoFloat
  | .fin q => .fin (-q)
  | .nan => .nan
  | .posInf => .negInf
  | .negInf => .posInf

/-- IEEE-754 addition on the model (finite sums stay exact). -/
def GoFloat.add : GoFloat → GoFloat → GoFloat
  | .nan, _ => .nan
  | _, .nan => .nan
  | .fin a, .fin b => .fin (a + b)
  | .posInf, .negInf => .nan
  | .negInf, .posInf => .nan
  | .posInf, _ => .posInf
  | _, .posInf => .posInf
  | .negInf, _ => .negInf
  | _, .negInf => .negInf

/-- IEEE-754 subtraction. -/
def GoFloat.sub (a b : GoFloat) : GoFloat := a.add b.neg

/-- IEEE-754 `<=` as Go evaluates it: any comparison with NaN is false. -/
def GoFloat.le : GoFloat → GoFloat → Bool
  | .nan, _ => false
  | _, .nan => false
  | .negInf, _ => true
  | _, .posInf => true
  | .posInf, _ => false
  | _, .negInf => false
  | .fin a, .fin b => decide (a ≤ b)

/-- Finiteness of a Go float. -/
def GoFloat.finite : GoFloat → Bool
  | .fin _ => true
  | _ => false

/-- Numeric value of a list of decimal digit characters. -/
def natOfDigits (cs : List Char) : Nat :=
  cs.foldl (fun a c => 10 * a + (c.toNat - 48)) 0

/-- Model of Go `strconv.ParseFloat(s, 64)` on ordinary decimal input: sign,
decimal digits, optional fraction, optional decimal exponent.  The exotic
accepted forms (hex mantissas, `Inf`/`NaN` literals, underscore separators)
are outside the model: no claim and no repository datum uses them.  Binary
rounding is not modelled, values stay exact. -/
def parseFloat? (s : String) : Option ℚ :=
  match s.data with
  | [] => none
  | cs0 =>
    let sgncs : ℚ × List Char :=
      match cs0 with
      | '+' :: t => (1, t)
      | '-' :: t => (-1, t)
      | t => (1, t)
    let sgn := sgncs.1
    let cs := sgncs.2
    let mantRest := cs.span (fun c => !(c == 'e' || c == 'E'))
    let eVal? : Option ℤ :=
      match mantRest.2 with
      | [] => some 0
      | _ :: er =>
        let esed : ℤ × List Char :=
          match er with
          | '+' :: t => (1, t)
          | '-' :: t => (-1, t)
          | t => (1, t)
        if esed.2 ≠ [] ∧ esed.2.all Char.isDigit then
          some (esed.1 * (natOfDigits esed.2 : ℤ))
        else none
    let ipDotFrac := mantRest.1.span (fun c => !(c == '.'))
    let ip := ipDotFrac.1
    let fp? : Option (List Char) :=
      match ipDotFrac.2 with
      | [] => some []
      | _ :: t => if t.all Char.isDigit then some t else none
    match eVal?, fp? with
    | some e, some fp =>
      if ip.all Char.isDigit ∧ (ip ≠ [] ∨ fp ≠ []) then
        some (sgn * ((natOfDigits ip : ℚ) + (natOfDigits fp : ℚ) / ((10 : ℚ) ^ fp.length)) *
          (10 : ℚ) ^ e)
      else none
    | _, _ => none

/-- Model of Go `strconv.ParseInt(s, 0, 64)` on decimal input: sign, decimal
digits, 64-bit range check.  Base prefixes and underscores accepted by base 0
are outside the model; every id in the data and the claims is plain decimal. -/
def parseInt64? (s : String) : Option ℤ :=
  let sgnds : ℤ × List Char :=
    match s.data with
    | '+' :: t => (1, t)
    | '-' :: t => (-1, t)
    | t => (1, t)
  if sgnds.2 ≠ [] ∧ sgnds.2.all Char.isDigit then
    let v : ℤ := sgnds.1 * (natOfDigits sgnds.2 : ℤ)
    if -(2 ^ 63) ≤ v ∧ v < 2 ^ 63 then some v else none
  else none

/-- Transcription of `isFloat` (crimes.go): true iff `strconv.ParseFloat`
succeeds. -/
def isFloat (s : String) : Bool := (parseFloat? s).isSome

/-- Left-pad a string with `'0'` to the given length. -/
def padZeros (k : Nat) (s : String) : String :=
  String.mk (List.replicate (k - s.length) '0') ++ s

/-- Model of Go `fmt.Sprintf("%v", x)` on a finite float64: the shortest
decimal string that round-trips.  Modelled for values whose denominator
divides a power of ten (every value arising here); Go's switch to scientific
notation at extreme exponents is outside the model.  The development relies
only on this function being deterministic. -/
def formatFloat (q : ℚ) : String :=
  let sgn := if q < 0 then "-" else ""
  let n := q.num.natAbs
  let d := q.den
  match (List.range 19).find? (fun k => 10 ^ k % d == 0) with
  | some k =>
    if k = 0 then sgn ++ toString n
    else
      let m := n * (10 ^ k / d)
      sgn ++ toString (m / 10 ^ k) ++ "." ++ padZeros k (toString (m % 10 ^ k))
  | none => sgn ++ toString n ++ "/" ++ toString d

/-- Go `%v` on a float64 including the non-finite values. -/
def GoFloat.format : GoFloat → String
  | .fin q => formatFloat q
  | .nan => "NaN"
  | .posInf => "+Inf"
  | .negInf => "-Inf"

/-- One half mile of latitude in the WGS84 coordinate system (crimes.go). -/
def HALF_MILE_LAT : ℚ := 714 / 100000

/-- One half mile of longitude in the WGS84 coordinate system (crimes.go). -/
def HALF_MILE_LNG : ℚ := 724 / 100000

/-- A latitude and longitude coordinate pair (crimes.go `Point`), as stored
for a location: always finite, hence exact rationals. -/
structure Point where
  Lat : ℚ
  Lng : ℚ
deriving DecidableEq, Repr

/-- A query point as passed to `FindNear`: a Go float64 pair which may be
non-finite. -/
structure QueryPoint where
  Lat : GoFloat
  Lng : GoFloat
deriving DecidableEq, Repr

/-- A CSV row (crimes.go `CsvRow`). -/
abbrev CsvRow := List String

/-- Data for a single crime (crimes.go `Crime`).  The Go field `Type` is
rendered `Typ` (`Type` is reserved in Lean); `Id` is an int64. -/
structure Crime where
  Id : ℤ
  Date : String
  Time : String
  Typ : String
deriving DecidableEq, Repr

/-- A location with a coordinate at which crimes occurred (crimes.go
`CrimeLocation`). -/
structure CrimeLocation where
  Point : Point
  Crimes : List Crime
deriving DecidableEq, Repr

/-- The Go `LocationLookup` map from coordinate-key strings to locations,
modelled as an association list; pointer mutation becomes functional update,
and map iteration order is handled by quantifying over permutations where it
matters. -/
abbrev LocationLookup := List (String × CrimeLocation)

/-- Map lookup `locs[key]`. -/
def lookupKey (k : String) : LocationLookup → Option CrimeLocation
  | [] => none
  | e :: rest => if e.1 = k then some e.2 else lookupKey k rest

/-- GetCoordinateKey (crimes.go): `fmt.Sprintf("%v,%v", x, y)`. -/
def GetCoordinateKey (x y : ℚ) : String := formatFloat x ++ "," ++ formatFloat y

/-- Result of a Go call in the model: `panic` models a runtime panic (index
out of range, nil dereference), `err` a non-nil error return, `ok` a normal
return. -/
inductive GoResult (α : Type) where
  | panic
  | err
  | ok (val : α)
deriving DecidableEq, Repr

/-- Transcription of `floatForCol` (crimes.go): coerce column `col` of a row
to float64, logging on failure; also reads `row[0]` for the log line, so an
empty row panics.  The second component is the emitted log. -/
def floatForCol (col : Nat) (row : CsvRow) : GoResult ℚ × List String :=
  match row[col]?, row[0]? with
  | some val, some id =>
    match parseFloat? val with
    | some f => (.ok f, [])
    | none =>
      (.err, ["Could not parse column " ++ toString col ++ " of row " ++ id ++
        ". Bad value: " ++ val])
  | _, _ => (.panic, [])

/-- Transcription of `floatCoordsFromRow` (crimes.go): the coordinate pair
from columns 8 and 9. -/
def floatCoordsFromRow (row : CsvRow) : GoResult (ℚ × ℚ) × List String :=
  match floatForCol 8 row with
  | (.ok lat, l1) =>
    match floatForCol 9 row with
    | (.ok lng, l2) => (.ok (lat, lng), l1 ++ l2)
    | (.err, l2) => (.err, l1 ++ l2)
    | (.panic, l2) => (.panic, l1 ++ l2)
  | (.err, l1) => (.err, l1)
  | (.panic, l1) => (.panic, l1)

/-- Transcription of `getOrCreateFromCsvRow` (crimes.go): look up the row's
coordinate key, inserting a fresh location with an empty crime list when
absent.  The Go original returns the location pointer which the caller then
mutates; the model returns the key and updates through it. -/
def getOrCreateFromCsvRow (locs : LocationLookup) (row : CsvRow) :
    GoResult (String × LocationLookup) × List String :=
  match floatCoordsFromRow row with
  | (.ok c, lg) =>
    let key := GetCoordinateKey c.1 c.2
    match lookupKey key locs with
    | some _ => (.ok (key, locs), lg)
    | none => (.ok (key, locs ++ [(key, ⟨⟨c.1, c.2⟩, []⟩)]), lg)
  | (.err, lg) => (.err, lg)
  | (.panic, lg) => (.panic, lg)

/-- Append a crime to the location stored at `key`; models the Go append
through the shared `*CrimeLocation`. -/
def appendCrime (locs : LocationLookup) (key : String) (c : Crime) : LocationLookup :=
  locs.map fun e => if e.1 = key then (e.1, ⟨e.2.Point, e.2.Crimes ++ [c]⟩) else e

/-- Transcription of `CrimeTypes.Contains` (crimes.go). -/
def CrimeTypes.Contains (types : List String) (crimeType : String) : Bool :=
  match types with
  | [] => false
  | t :: rest => if crimeType = t then true else CrimeTypes.Contains rest crimeType

/-- Outcome of a successful `loadFromCsv`: the lookup table, the accumulated
crime-type list and the crime count of the summary log line. -/
structure LoadOutcome where
  locs : LocationLookup
  types : List String
  numCrimes : Nat
deriving DecidableEq, Repr

/-- The row loop of `loadFromCsv` (crimes.go): per row, get-or-create the
location, then parse the id — a failure skips the row without any log entry
(the location just created stays) — then record the crime type and append
the crime. -/
def loadRows (types : List String) (locs : LocationLookup) (numCrimes : Nat) :
    List CsvRow → GoResult LoadOutcome × List String
  | [] => (.ok ⟨locs, types, numCrimes⟩, [])
  | row :: rest =>
    match getOrCreateFromCsvRow locs row with
    | (.ok kl, lg) =>
      match row[0]? with
      | none => (.panic, lg)
      | some idStr =>
        match parseInt64? idStr with
        | none =>
          let r := loadRows types kl.2 numCrimes rest
          (r.1, lg ++ r.2)
        | some id =>
          match row[3]?, row[1]?, row[2]? with
          | some ty, some date, some time =>
            let types' := if CrimeTypes.Contains types ty then types else types ++ [ty]
            let locs' := appendCrime kl.2 kl.1 ⟨id, date, time, ty⟩
            let r := loadRows types' locs' (numCrimes + 1) rest
            (r.1, lg ++ r.2)
          | _, _, _ => (.panic, lg)
    | (.err, lg) =>
      let r := loadRows types locs numCrimes rest
      (r.1, lg ++ r.2)
    | (.panic, lg) => (.panic, lg)

/-- Transcription of `loadFromCsv` (crimes.go): hydrate the lookup table from
CSV rows and log a summary line.  The Go original always returns a nil
error; the only failure in the model is the short-row panic, unreachable for
rows that passed `readCrimes`. -/
def loadFromCsv (rows : List CsvRow) : GoResult LoadOutcome × List String :=
  match loadRows [] [] 0 rows with
  | (.ok out, lg) =>
    (.ok out, lg ++ ["Loaded " ++ toString out.numCrimes ++ " crimes and " ++
      toString out.locs.length ++ " locations"])
  | r => r

/-- Filter loop of `readCrimes` (crimes.go); reading and CSV-parsing the file
are I/O outside the model, so the function takes the parsed rows.  A row
whose column 8 or 9 is empty or not float-parseable is silently skipped; a
row without a column 8 or 9 panics (index out of range). -/
def readCrimes : List CsvRow → GoResult (List CsvRow)
  | [] => .ok []
  | row :: rest =>
    match row[8]?, row[9]? with
    | some a, some b =>
      match readCrimes rest with
      | .ok out =>
        if a = "" || b = "" then .ok out
        else if !isFloat a || !isFloat b then .ok out
        else .ok (row :: out)
      | r => r
    | _, _ => .panic

/-- Modelled from the spec: the kd-tree of `github.com/unit3/kdtree`, which
is not part of this repository (§4.3: a 2-d tree whose splitting dimension
alternates per level, starting at dimension 0). -/
inductive KdTree where
  | leaf
  | node (d : Nat) (pt : ℚ × ℚ) (l r : KdTree)
deriving DecidableEq, Repr

/-- Coordinate of a point in splitting dimension `d` (`d` mod 2 selects
latitude or longitude). -/
def coordAt (d : Nat) (p : ℚ × ℚ) : ℚ := if d % 2 = 0 then p.1 else p.2

/-- Comparator used when partitioning at dimension `d`. -/
def leAt (d : Nat) (p q : ℚ × ℚ) : Bool := decide (coordAt d p ≤ coordAt d q)

/-- Stable insertion of `x` into a list sorted by `le`.  (A structurally
recursive sort is used for the model so that concrete trees compute.) -/
def insLe (le : α → α → Bool) (x : α) : List α → List α
  | [] => [x]
  | y :: ys => if le x y then x :: y :: ys else y :: insLe le x ys

/-- Stable insertion sort by the Boolean comparator `le`. -/
def sortLe (le : α → α → Bool) : List α → List α
  | [] => []
  | x :: xs => insLe le x (sortLe le xs)

/-- Modelled from the spec (§4.3): the recursion of `kdtree.BuildTree` — sort
the points by the current dimension (stably, preserving insertion order on
ties), take the median as the node, recurse on the two halves with the next
dimension.  Structured on a fuel bounded below by the list length. -/
def buildAux : Nat → Nat → List (ℚ × ℚ) → KdTree
  | 0, _, _ => .leaf
  | _ + 1, _, [] => .leaf
  | n + 1, d, p :: ps =>
    let sorted := sortLe (leAt d) (p :: ps)
    let m := (p :: ps).length / 2
    .node d (sorted.getD m (0, 0)) (buildAux n (d + 1) (sorted.take m))
      (buildAux n (d + 1) (sorted.drop (m + 1)))

/-- Modelled from the spec (§4.3): `kdtree.BuildTree`. -/
def BuildTree (pts : List (ℚ × ℚ)) : KdTree := buildAux pts.length 0 pts

/-- In-order list of the points stored in a tree. -/
def KdTree.toList : KdTree → List (ℚ × ℚ)
  | .leaf => []
  | .node _ p l r => l.toList ++ p :: r.toList

/-- Modelled from the spec: a query range in one dimension (`kdtree.Range`);
bounds are Go floats because `FindNear` computes them from the query point. -/
structure KdRange where
  Min : GoFloat
  Max : GoFloat
deriving DecidableEq, Repr

/-- Membership of a stored (finite) coordinate in a one-dimensional range:
inclusive at both ends, false whenever a bound is NaN (Go comparison
semantics). -/
def inRange (r : KdRange) (c : ℚ) : Bool := r.Min.le (.fin c) && (GoFloat.fin c).le r.Max

/-- Membership of a point in the two-dimensional query box. -/
def inBox (r0 r1 : KdRange) (p : ℚ × ℚ) : Bool := inRange r0 p.1 && inRange r1 p.2

/-- Modelled from the spec (§4.4): `Tree.FindRange` — collect every indexed
coordinate inside the box, pruning a child when its side of the split cannot
intersect the range (left descendants hold coordinates at most the split
value in the split dimension, right descendants at least it).  The Go
signature also returns an error; the spec gives the range query no failure
case, so the model never fails. -/
def KdTree.findRange (r0 r1 : KdRange) : KdTree → List (ℚ × ℚ)
  | .leaf => []
  | .node d p l r =>
    let rd := if d % 2 = 0 then r0 else r1
    (if rd.Min.le (.fin (coordAt d p)) then l.findRange r0 r1 else []) ++
      (if inBox r0 r1 p then [p] else []) ++
      (if (GoFloat.fin (coordAt d p)).le rd.Max then r.findRange r0 r1 else [])

/-- An object that can find crimes near a WGS84 coordinate (crimes.go
`CrimeFinder`); `Tree` is a pointer in Go, `none` before any build. -/
structure CrimeFinder where
  LocationLookup : LocationLookup
  CrimeTypes : List String
  Tree : Option KdTree
deriving DecidableEq, Repr

/-- The result of a search for crimes near a location (crimes.go
`SearchResult`). -/
structure SearchResult where
  Query : QueryPoint
  Locations : List CrimeLocation
deriving DecidableEq, Repr

/-- Transcription of `FindNear` (crimes.go): an axis-aligned bounding-box
range query of fixed half-width around `query`, each returned coordinate
resolved through the lookup table — a key hit appends the location, a miss
is silently dropped.  Calling through a nil `Tree` dereferences a nil
pointer in Go, modelled as `none`; the error return of the Go original can
only propagate from `FindRange`, which never fails in the model. -/
def CrimeFinder.FindNear (finder : CrimeFinder) (query : QueryPoint) : Option SearchResult :=
  match finder.Tree with
  | none => none
  | some t =>
    let r0 : KdRange :=
      ⟨query.Lat.sub (.fin HALF_MILE_LAT), query.Lat.add (.fin HALF_MILE_LAT)⟩
    let r1 : KdRange :=
      ⟨query.Lng.sub (.fin HALF_MILE_LNG), query.Lng.add (.fin HALF_MILE_LNG)⟩
    some ⟨query, (t.findRange r0 r1).filterMap
      fun p => lookupKey (GetCoordinateKey p.1 p.2) finder.LocationLookup⟩

/-- Build a finder from a loaded table with its entries in a given order; the
kd-tree nodes are one per location, exactly as in `NewCrimeFinder`. -/
def mkFinder (types : List String) (locs : LocationLookup) : CrimeFinder :=
  ⟨locs, types, some (BuildTree (locs.map fun e => (e.2.Point.Lat, e.2.Point.Lng)))⟩

/-- Transcription of `NewCrimeFinder` (crimes.go): read and filter the rows,
hydrate the lookup table, then build the kd-tree with one node per location.
Go iterates the lookup map in unspecified order when collecting nodes; the
model uses table order here and quantifies over permutations where the order
matters. -/
def NewCrimeFinder (rows : List CsvRow) : GoResult CrimeFinder × List String :=
  match readCrimes rows with
  | .ok rows' =>
    match loadFromCsv rows' with
    | (.ok out, lg) => (.ok (mkFinder out.types out.locs), lg)
    | (.err, lg) => (.err, lg)
    | (.panic, lg) => (.panic, lg)
  | .err => (.err, [])
  | .panic => (.panic, [])

/-- JSON fragment for one crime, transcribing the format string of `ToJson`
(crimes.go): string fields are interpolated verbatim, with no escaping. -/
def crimeJson (c : Crime) : String :=
  "\x7b\"id\":" ++ toString c.Id ++ ",\"date\":\"" ++ c.Date ++ "\",\"time\":\"" ++
    c.Time ++ "\",\"type\":\"" ++ c.Typ ++ "\"\x7d"

/-- Inner loop of `ToJson` over one location's crimes, with its comma rule. -/
def crimesJson (total : Nat) : Nat → List Crime → String
  | _, [] => ""
  | i, c :: rest =>
    crimeJson c ++ (if total > 1 && !(i == total - 1) then "," else "") ++
      crimesJson total (i + 1) rest

/-- JSON fragment for one location. -/
def locationJson (loc : CrimeLocation) : String :=
  "\x7b\"point\":\x7b\"lat\":" ++ formatFloat loc.Point.Lat ++ ",\"lng\":" ++
    formatFloat loc.Point.Lng ++ "\x7d," ++ "\"crimes\":[" ++
    crimesJson loc.Crimes.length 0 loc.Crimes ++ "]\x7d"

/-- Outer loop of `ToJson` over the locations. -/
def locationsJson (total : Nat) : Nat → List CrimeLocation → String
  | _, [] => ""
  | x, loc :: rest =>
    locationJson loc ++ (if total > 1 && !(x == total - 1) then "," else "") ++
      locationsJson total (x + 1) rest

/-- Transcription of `ToJson` (crimes.go): the hand-rolled `SearchResult`
serializer, faithful to its format strings and comma placement; the Go
original always returns a nil error. -/
def SearchResult.ToJson (r : SearchResult) : String :=
  "\x7b\"query\":\x7b\"lat\":" ++ r.Query.Lat.format ++ ",\"lng\":" ++
    r.Query.Lng.format ++ "\x7d,\"locations\":[" ++
    locationsJson r.Locations.length 0 r.Locations ++ "]\x7d"

/-- Whitespace of the JSON grammar (RFC 8259). -/
def jsonWs (c : Char) : Bool := c == ' ' || c == '\t' || c == '\n' || c == '\r'

/-- Skip leading JSON whitespace. -/
def skipWs : List Char → List Char
  | c :: rest => if jsonWs c then skipWs rest else c :: rest
  | [] => []

/-- Hexadecimal digit test for JSON unicode escapes. -/
def isHexChar (c : Char) : Bool :=
  c.isDigit || ('a' ≤ c && c ≤ 'f') || ('A' ≤ c && c ≤ 'F')

/-- Consume the body of a JSON string after the opening quote, per RFC 8259:
raw control characters and bad escapes are rejected. -/
def jsonStringBody : Nat → List Char → Option (List Char)
  | 0, _ => none
  | _ + 1, [] => none
  | fuel + 1, c :: rest =>
    if c = '"' then some rest
    else if c = '\\' then
      match rest with
      | [] => none
      | e :: rest' =>
        if e == '"' || e == '\\' || e == '/' || e == 'b' || e == 'f' || e == 'n' ||
            e == 'r' || e == 't' then
          jsonStringBody fuel rest'
        else if e = 'u' then
          match rest' with
          | h1 :: h2 :: h3 :: h4 :: rest'' =>
            if isHexChar h1 && isHexChar h2 && isHexChar h3 && isHexChar h4 then
              jsonStringBody fuel rest''
            else none
          | _ => none
        else none
    else if c.toNat < 32 then none
    else jsonStringBody fuel rest

/-- Consume a literal character sequence. -/
def takeLit : List Char → List Char → Option (List Char)
  | [], cs => some cs
  | l :: ls, c :: cs => if c = l then takeLit ls cs else none
  | _ :: _, [] => none

/-- Consume an optional JSON fraction part. -/
def jsonFrac (cs : List Char) : Option (List Char) :=
  match cs with
  | '.' :: t =>
    match t.span Char.isDigit with
    | ([], _) => none
    | (_, rest) => some rest
  | _ => some cs

/-- Consume an optional JSON exponent part. -/
def jsonExp (cs : List Char) : Option (List Char) :=
  match cs with
  | c :: t =>
    if c == 'e' || c == 'E' then
      let t' := match t with
        | s :: t'' => if s == '+' || s == '-' then t'' else s :: t''
        | [] => []
      match t'.span Char.isDigit with
      | ([], _) => none
      | (_, rest) => some rest
    else some (c :: t)
  | [] => some []

/-- Consume a JSON number per RFC 8259 (no leading zeros, no bare dot). -/
def jsonNumber (cs : List Char) : Option (List Char) :=
  let body := match cs with | '-' :: t => t | t => t
  match body.span Char.isDigit with
  | ([], _) => none
  | (ds, rest) =>
    if ds.head? == some '0' && ds.length != 1 then none
    else
      match jsonFrac rest with
      | none => none
      | some rest' => jsonExp rest'

mutual

/-- Consume one JSON value per RFC 8259. -/
def jsonValue : Nat → List Char → Option (List Char)
  | 0, _ => none
  | fuel + 1, cs =>
    match skipWs cs with
    | [] => none
    | c :: rest =>
      if c = '"' then jsonStringBody (fuel + 1) rest
      else if c = '[' then
        match skipWs rest with
        | ']' :: rest' => some rest'
        | cs' => jsonElems fuel cs'
      else if c = '\x7b' then
        match skipWs rest with
        | '\x7d' :: rest' => some rest'
        | cs' => jsonMembers fuel cs'
      else if c = 't' then takeLit ['r', 'u', 'e'] rest
      else if c = 'f' then takeLit ['a', 'l', 's', 'e'] rest
      else if c = 'n' then takeLit ['u', 'l', 'l'] rest
      else jsonNumber (c :: rest)

/-- Consume the elements of a non-empty JSON array up to `]`. -/
def jsonElems : Nat → List Char → Option (List Char)
  | 0, _ => none
  | fuel + 1, cs =>
    match jsonValue fuel cs with
    | none => none
    | some rest =>
      match skipWs rest with
      | ',' :: rest' => jsonElems fuel rest'
      | ']' :: rest' => some rest'
      | _ => none

/-- Consume the members of a non-empty JSON object up to the closing brace. -/
def jsonMembers : Nat → List Char → Option (List Char)
  | 0, _ => none
  | fuel + 1, cs =>
    match skipWs cs with
    | '"' :: rest =>
      match jsonStringBody (fuel + 1) rest with
      | none => none
      | some rest' =>
        match skipWs rest' with
        | ':' :: rest'' =>
          match jsonValue fuel rest'' with
          | none => none
          | some rest3 =>
            match skipWs rest3 with
            | ',' :: rest4 => jsonMembers fuel rest4
            | '\x7d' :: rest4 => some rest4
            | _ => none
        | _ => none
    | _ => none

end

/-- Validity of a string as a single RFC 8259 JSON document: one value with
only whitespace after it. -/
def isValidJson (s : String) : Bool :=
  match jsonValue (2 * s.data.length + 2) s.data with
  | some rest => (skipWs rest).isEmpty
  | none => false

/-! Derived row predicates used to state properties of ingestion. -/

/-- The coordinate pair of a row as ingestion parses it (columns 8 and 9). -/
def rowCoords? (row : CsvRow) : Option (ℚ × ℚ) :=
  match row[8]?, row[9]? with
  | some a, some b =>
    match parseFloat? a, parseFloat? b with
    | some la, some lb => some (la, lb)
    | _, _ => none
  | _, _ => none

/-- The coordinate key of a row. -/
def rowKey? (row : CsvRow) : Option String :=
  (rowCoords? row).map fun c => GetCoordinateKey c.1 c.2

/-- The location point a row contributes (junk when the coordinates do not
parse). -/
def rowPoint (row : CsvRow) : Point :=
  match rowCoords? row with
  | some c => ⟨c.1, c.2⟩
  | none => ⟨0, 0⟩

/-- The crime record a row contributes, when its id parses. -/
def rowCrime? (row : CsvRow) : Option Crime :=
  match row[0]? with
  | none => none
  | some idStr =>
    match parseInt64? idStr with
    | none => none
    | some id =>
      match row[3]?, row[1]?, row[2]? with
      | some ty, some date, some time => some ⟨id, date, time, ty⟩
      | _, _, _ => none

/-- All crimes contributed to coordinate key `k` by a row sequence, in row
order. -/
def crimesFor (k : String) (rows : List CsvRow) : List Crime :=
  rows.filterMap fun r => if rowKey? r = some k then rowCrime? r else none

/-- A row ingestion can process without panicking and without a coordinate
error: ten columns and parseable coordinates. -/
abbrev RowOk (row : CsvRow) : Prop := 10 ≤ row.length ∧ (rowCoords? row).isSome

/-- Well-formedness of the dedup table as ingestion maintains it: keys are
distinct and every entry is stored under the key derived from its own
coordinates. -/
def TableWF (locs : LocationLookup) : Prop :=
  (locs.map Prod.fst).Nodup ∧
    ∀ e ∈ locs, GetCoordinateKey e.2.Point.Lat e.2.Point.Lng = e.1

/-! Basic lemmas about the Go float order. -/

theorem GoFloat.le_fin_mono (lo : GoFloat) {a b : ℚ} (hab : a ≤ b)
    (h : lo.le (.fin a) = true) : lo.le (.fin b) = true := by
  cases lo <;> simp_all [GoFloat.le] <;> exact le_trans h hab

theorem GoFloat.fin_le_mono (hi : GoFloat) {a b : ℚ} (hab : a ≤ b)
    (h : (GoFloat.fin b).le hi = true) : (GoFloat.fin a).le hi = true := by
  cases hi <;> simp_all [GoFloat.le] <;> exact le_trans hab h

theorem GoFloat.fin_sub_fin (a b : ℚ) :
    (GoFloat.fin a).sub (.fin b) = .fin (a - b) := by
  simp [GoFloat.sub, GoFloat.add, GoFloat.neg, sub_eq_add_neg]

theorem GoFloat.fin_add_fin (a b : ℚ) :
    (GoFloat.fin a).add (.fin b) = .fin (a + b) := rfl

/-! Basic lemmas about map lookup on the association-list model. -/

theorem lookupKey_eq_none_iff {k : String} {locs : LocationLookup} :
    lookupKey k locs = none ↔ k ∉ locs.map Prod.fst := by
  induction locs with
  | nil => simp [lookupKey]
  | cons e rest ih =>
    by_cases he : e.1 = k
    · subst he
      simp [lookupKey]
    · simp [lookupKey, he, ih, Ne.symm he]

theorem lookupKey_mem_of_nodup {k : String} {loc : CrimeLocation} {locs : LocationLookup}
    (hnd : (locs.map Prod.fst).Nodup) (hmem : (k, loc) ∈ locs) :
    lookupKey k locs = some loc := by
  induction locs with
  | nil => simp at hmem
  | cons e rest ih =>
    simp only [List.map_cons, List.nodup_cons] at hnd
    rcases List.mem_cons.mp hmem with h | h
    · rw [← h]
      simp [lookupKey]
    · have hk : e.1 ≠ k := by
        intro hek
        exact hnd.1 (hek ▸ List.mem_map.mpr ⟨(k, loc), h, rfl⟩)
      simp [lookupKey, hk, ih hnd.2 h]

theorem lookupKey_isSome_iff {k : String} {locs : LocationLookup} :
    (∃ loc, lookupKey k locs = some loc) ↔ k ∈ locs.map Prod.fst := by
  rcases h : lookupKey k locs with _ | loc
  · simp [lookupKey_eq_none_iff.mp h]
  · constructor
    · intro _
      by_contra hk
      rw [lookupKey_eq_none_iff.mpr hk] at h
      cases h
    · exact fun _ => ⟨loc, rfl⟩

theorem lookupKey_append {k : String} {l1 l2 : LocationLookup} :
    lookupKey k (l1 ++ l2) =
      match lookupKey k l1 with
      | some v => some v
      | none => lookupKey k l2 := by
  induction l1 with
  | nil => simp [lookupKey]
  | cons e rest ih =>
    by_cases he : e.1 = k <;> simp [lookupKey, he, ih]

theorem lookupKey_appendCrime {k key : String} {c : Crime} {locs : LocationLookup} :
    lookupKey k (appendCrime locs key c) =
      (lookupKey k locs).map fun loc =>
        if k = key then ⟨loc.Point, loc.Crimes ++ [c]⟩ else loc := by
  induction locs with
  | nil => simp [lookupKey, appendCrime]
  | cons e rest ih =>
    by_cases hek : e.1 = key <;> by_cases hk : e.1 = k <;>
      simp_all [lookupKey, appendCrime]

theorem appendCrime_map_fst {key : String} {c : Crime} {locs : LocationLookup} :
    (appendCrime locs key c).map Prod.fst = locs.map Prod.fst := by
  induction locs with
  | nil => rfl
  | cons e rest ih =>
    by_cases hek : e.1 = key <;> simp_all [appendCrime]

theorem tableWF_appendCrime {key : String} {c : Crime} {locs : LocationLookup}
    (h : TableWF locs) : TableWF (appendCrime locs key c) := by
  constructor
  · rw [appendCrime_map_fst]
    exact h.1
  · intro e he
    rw [appendCrime] at he
    rcases List.mem_map.mp he with ⟨e0, he0, heq⟩
    by_cases hek : e0.1 = key
    · simp only [if_pos hek] at heq
      cases heq
      exact h.2 e0 he0
    · simp only [if_neg hek] at heq
      rw [← heq]
      exact h.2 e0 he0

theorem filterMap_eq_map_of_forall {α β : Type} {l : List α} {g : α → Option β} {f : α → β}
    (h : ∀ e ∈ l, g e = some (f e)) : l.filterMap g = l.map f := by
  induction l with
  | nil => rfl
  | cons e rest ih =>
    simp [List.filterMap_cons, h e (List.mem_cons_self e rest),
      ih fun x hx => h x (List.mem_cons_of_mem e hx)]

/-! Lemmas about the row-ingestion pipeline. -/

theorem get?_some_of_len {row : CsvRow} {i : Nat} (h : i < row.length) :
    ∃ x, row[i]? = some x :=
  ⟨row[i], List.getElem?_eq_getElem h⟩

theorem crimesFor_nil {k : String} : crimesFor k [] = [] := rfl

theorem crimesFor_cons_skip {k : String} {r : CsvRow} {rows : List CsvRow}
    (h : rowCrime? r = none ∨ rowKey? r ≠ some k) :
    crimesFor k (r :: rows) = crimesFor k rows := by
  rcases h with h | h
  · by_cases hk : rowKey? r = some k <;> simp [crimesFor, List.filterMap_cons, hk, h]
  · simp [crimesFor, List.filterMap_cons, h]

theorem crimesFor_cons_hit {k : String} {r : CsvRow} {c : Crime} {rows : List CsvRow}
    (hk : rowKey? r = some k) (hc : rowCrime? r = some c) :
    crimesFor k (r :: rows) = c :: crimesFor k rows := by
  simp [crimesFor, List.filterMap_cons, hk, hc]

theorem floatCoordsFromRow_cases {row : CsvRow} (h : 10 ≤ row.length) :
    (∃ c, floatCoordsFromRow row = (.ok c, []) ∧ rowCoords? row = some c) ∨
      (∃ lg, floatCoordsFromRow row = (.err, lg) ∧ rowCoords? row = none) := by
  obtain ⟨a, h8⟩ := get?_some_of_len (show 8 < row.length by omega)
  obtain ⟨b, h9⟩ := get?_some_of_len (show 9 < row.length by omega)
  obtain ⟨id0, h0⟩ := get?_some_of_len (show 0 < row.length by omega)
  rcases hpa : parseFloat? a with _ | la
  · right
    refine ⟨["Could not parse column " ++ toString 8 ++ " of row " ++ id0 ++
      ". Bad value: " ++ a], ?_, ?_⟩ <;>
      simp [floatCoordsFromRow, floatForCol, rowCoords?, h8, h9, h0, hpa]
  · rcases hpb : parseFloat? b with _ | lb
    · right
      refine ⟨["Could not parse column " ++ toString 9 ++ " of row " ++ id0 ++
        ". Bad value: " ++ b], ?_, ?_⟩ <;>
        simp [floatCoordsFromRow, floatForCol, rowCoords?, h8, h9, h0, hpa, hpb]
    · left
      refine ⟨(la, lb), ?_, ?_⟩ <;>
        simp [floatCoordsFromRow, floatForCol, rowCoords?, h8, h9, h0, hpa, hpb]

theorem getOrCreate_ok {locs : LocationLookup} {row : CsvRow} {c : ℚ × ℚ}
    (h : 10 ≤ row.length) (hc : rowCoords? row = some c) :
    getOrCreateFromCsvRow locs row =
      (.ok (GetCoordinateKey c.1 c.2,
        match lookupKey (GetCoordinateKey c.1 c.2) locs with
        | some _ => locs
        | none => locs ++ [(GetCoordinateKey c.1 c.2, ⟨⟨c.1, c.2⟩, []⟩)]), []) := by
  rcases floatCoordsFromRow_cases h with ⟨c', hf, hc'⟩ | ⟨lg, hf, hc'⟩
  · rw [hc] at hc'
    cases hc'
    rcases hl : lookupKey (GetCoordinateKey c.1 c.2) locs with _ | loc <;>
      simp [getOrCreateFromCsvRow, hf, hl]
  · rw [hc] at hc'
    cases hc'

theorem getOrCreate_err {locs : LocationLookup} {row : CsvRow}
    (h : 10 ≤ row.length) (hc : rowCoords? row = none) :
    ∃ lg, getOrCreateFromCsvRow locs row = (.err, lg) := by
  rcases floatCoordsFromRow_cases h with ⟨c', hf, hc'⟩ | ⟨lg, hf, hc'⟩
  · rw [hc] at hc'
    cases hc'
  · exact ⟨lg, by simp [getOrCreateFromCsvRow, hf]⟩

theorem getOrCreate_wf {locs locs' : LocationLookup} {row : CsvRow} {key : String}
    {lg : List String} (hWF : TableWF locs)
    (h : getOrCreateFromCsvRow locs row = (.ok (key, locs'), lg)) : TableWF locs' := by
  rcases hf : floatCoordsFromRow row with ⟨fres, flg⟩
  rw [getOrCreateFromCsvRow, hf] at h
  cases fres with
  | panic => cases h
  | err => cases h
  | ok c =>
    rcases hl : lookupKey (GetCoordinateKey c.1 c.2) locs with _ | loc
    · simp only [hl] at h
      cases h
      constructor
      · rw [List.map_append]
        refine List.Nodup.append hWF.1 (by simp) ?_
        intro x hx hx'
        simp only [List.map_cons, List.map_nil, List.mem_singleton] at hx'
        subst hx'
        exact (lookupKey_eq_none_iff.mp hl) hx
      · intro e he
        rcases List.mem_append.mp he with he | he
        · exact hWF.2 e he
        · simp only [List.mem_singleton] at he
          subst he
          rfl
    · simp only [hl] at h
      cases h
      exact hWF

theorem loadRows_wf :
    ∀ (rows : List CsvRow) (types : List String) (locs : LocationLookup) (n : Nat)
      (out : LoadOutcome) (lg : List String), TableWF locs →
      loadRows types locs n rows = (.ok out, lg) → TableWF out.locs := by
  intro rows
  induction rows with
  | nil =>
    intro types locs n out lg hWF hload
    rw [loadRows] at hload
    cases hload
    exact hWF
  | cons row rest ih =>
    intro types locs n out lg hWF hload
    rw [loadRows] at hload
    rcases hg : getOrCreateFromCsvRow locs row with ⟨gres, glg⟩
    rw [hg] at hload
    cases gres with
    | panic => cases hload
    | err =>
      simp only at hload
      have h1 : loadRows types locs n rest = (.ok out, (loadRows types locs n rest).2) := by
        have := congrArg Prod.fst hload
        simp at this
        rw [← this]
      exact ih types locs n out _ hWF h1
    | ok kl =>
      have hWF' : TableWF kl.2 := getOrCreate_wf hWF (by rw [hg])
      rcases h0 : row[0]? with _ | idStr
      · simp only [h0] at hload
        cases hload
      · simp only [h0] at hload
        rcases hid : parseInt64? idStr with _ | id
        · simp only [hid] at hload
          have h1 : loadRows types kl.2 n rest = (.ok out, (loadRows types kl.2 n rest).2) := by
            have := congrArg Prod.fst hload
            simp at this
            rw [← this]
          exact ih types kl.2 n out _ hWF' h1
        · simp only [hid] at hload
          rcases h3 : row[3]? with _ | ty <;> rcases h1 : row[1]? with _ | date <;>
            rcases h2 : row[2]? with _ | time <;> simp only [h3, h1, h2] at hload
          all_goals try cases hload
          have hWF'' : TableWF (appendCrime kl.2 kl.1 ⟨id, date, time, ty⟩) :=
            tableWF_appendCrime hWF'
          have heq : loadRows (if CrimeTypes.Contains types ty then types else types ++ [ty])
              (appendCrime kl.2 kl.1 ⟨id, date, time, ty⟩) (n + 1) rest =
              (.ok out, (loadRows (if CrimeTypes.Contains types ty then types
                else types ++ [ty]) (appendCrime kl.2 kl.1 ⟨id, date, time, ty⟩)
                (n + 1) rest).2) := by
            have := congrArg Prod.fst hload
            simp at this
            rw [← this]
          exact ih _ _ _ out _ hWF'' heq

theorem lookupKey_append_single {k kr : String} {x : CrimeLocation} {locs : LocationLookup} :
    lookupKey k (locs ++ [(kr, x)]) =
      match lookupKey k locs with
      | some v => some v
      | none => if kr = k then some x else none := by
  rw [lookupKey_append]
  rcases lookupKey k locs with _ | v <;> simp [lookupKey]

theorem loadRows_spec :
    ∀ (rows : List CsvRow), (∀ r ∈ rows, RowOk r) →
      ∀ (types : List String) (locs : LocationLookup) (n : Nat),
        ∃ out : LoadOutcome, loadRows types locs n rows = (.ok out, []) ∧
          ∀ k, lookupKey k out.locs =
            match lookupKey k locs with
            | some loc => some ⟨loc.Point, loc.Crimes ++ crimesFor k rows⟩
            | none =>
              match rows.find? (fun r => decide (rowKey? r = some k)) with
              | some r => some ⟨rowPoint r, crimesFor k rows⟩
              | none => none := by
  intro rows
  induction rows with
  | nil =>
    intro _ types locs n
    refine ⟨⟨locs, types, n⟩, by rw [loadRows], fun k => ?_⟩
    rcases hlk : lookupKey k locs with _ | loc <;> simp [crimesFor_nil, hlk]
  | cons row rest ih =>
    intro hok types locs n
    obtain ⟨hlen, hcs⟩ := hok row (List.mem_cons_self row rest)
    have hrest : ∀ r ∈ rest, RowOk r := fun r hr => hok r (List.mem_cons_of_mem row hr)
    rcases hc : rowCoords? row with _ | c
    · simp [hc] at hcs
    obtain ⟨idStr, h0⟩ := get?_some_of_len (show 0 < row.length by omega)
    obtain ⟨dateS, h1⟩ := get?_some_of_len (show 1 < row.length by omega)
    obtain ⟨timeS, h2⟩ := get?_some_of_len (show 2 < row.length by omega)
    obtain ⟨tyS, h3⟩ := get?_some_of_len (show 3 < row.length by omega)
    have hkey : rowKey? row = some (GetCoordinateKey c.1 c.2) := by simp [rowKey?, hc]
    have hpt : rowPoint row = ⟨c.1, c.2⟩ := by simp [rowPoint, hc]
    have hgo := @getOrCreate_ok locs row _ hlen hc
    rw [loadRows, hgo]
    simp only [h0]
    rcases hid : parseInt64? idStr with _ | id
    · -- malformed id: the row is skipped, its location stays
      have hcr : rowCrime? row = none := by simp [rowCrime?, h0, hid]
      obtain ⟨out, hload, hchar⟩ := ih hrest types
        (match lookupKey (GetCoordinateKey c.1 c.2) locs with
          | some _ => locs
          | none => locs ++ [(GetCoordinateKey c.1 c.2, ⟨⟨c.1, c.2⟩, []⟩)]) n
      refine ⟨out, by simp [hload], fun k => ?_⟩
      rw [hchar k]
      by_cases hk : k = GetCoordinateKey c.1 c.2
      · subst hk
        rcases hlk : lookupKey (GetCoordinateKey c.1 c.2) locs with _ | loc
        · simp only [hlk, lookupKey_append_single]
          simp [crimesFor_cons_skip (Or.inl hcr), List.find?_cons_of_pos, hkey, hpt]
        · simp [hlk, crimesFor_cons_skip (Or.inl hcr)]
      · have hfind : ¬((fun r => decide (rowKey? r = some k)) row = true) := by
          simp only [hkey, decide_eq_true_eq, Option.some.injEq]
          exact fun h => hk h.symm
        rw [@List.find?_cons_of_neg _ (fun r => decide (rowKey? r = some k)) row rest hfind]
        have hne : ¬(GetCoordinateKey c.1 c.2 = k) := fun h => hk h.symm
        rcases hlk2 : lookupKey (GetCoordinateKey c.1 c.2) locs with _ | loc2 <;>
          simp only [hlk2, lookupKey_append_single] <;>
          rcases hlk : lookupKey k locs with _ | loc <;>
          simp [hlk, hne, crimesFor_cons_skip (Or.inl hcr)]
    · -- well-formed id: the crime is appended to the row's location
      simp only [h3, h1, h2]
      have hcr : rowCrime? row = some ⟨id, dateS, timeS, tyS⟩ := by
        simp [rowCrime?, h0, hid, h3, h1, h2]
      obtain ⟨out, hload, hchar⟩ := ih hrest
        (if CrimeTypes.Contains types tyS then types else types ++ [tyS])
        (appendCrime
          (match lookupKey (GetCoordinateKey c.1 c.2) locs with
            | some _ => locs
            | none => locs ++ [(GetCoordinateKey c.1 c.2, ⟨⟨c.1, c.2⟩, []⟩)])
          (GetCoordinateKey c.1 c.2) ⟨id, dateS, timeS, tyS⟩) (n + 1)
      refine ⟨out, by simp [hload], fun k => ?_⟩
      rw [hchar k]
      rw [lookupKey_appendCrime]
      by_cases hk : k = GetCoordinateKey c.1 c.2
      · subst hk
        rcases hlk : lookupKey (GetCoordinateKey c.1 c.2) locs with _ | loc
        · simp only [hlk, lookupKey_append_single]
          simp [crimesFor_cons_hit hkey hcr, List.find?_cons_of_pos, hkey, hpt]
        · simp [hlk, crimesFor_cons_hit hkey hcr]
      · have hfind : ¬((fun r => decide (rowKey? r = some k)) row = true) := by
          simp only [hkey, decide_eq_true_eq, Option.some.injEq]
          exact fun h => hk h.symm
        rw [@List.find?_cons_of_neg _ (fun r => decide (rowKey? r = some k)) row rest hfind]
        have hskip : crimesFor k (row :: rest) = crimesFor k rest :=
          crimesFor_cons_skip (Or.inr (by
            simp only [hkey, ne_eq, Option.some.injEq]
            exact fun h => hk h.symm))
        have hne : ¬(GetCoordinateKey c.1 c.2 = k) := fun h => hk h.symm
        rcases hlk2 : lookupKey (GetCoordinateKey c.1 c.2) locs with _ | loc2 <;>
          simp only [hlk2, lookupKey_append_single] <;>
          rcases hlk : lookupKey k locs with _ | loc <;>
          simp [hlk, hk, hne, hskip]

/-! Correctness of the modelled kd-tree with respect to box membership. -/

theorem leAt_trans (d : Nat) : ∀ (a b c : ℚ × ℚ), leAt d a b → leAt d b c → leAt d a c := by
  intro a b c hab hbc
  simp only [leAt, decide_eq_true_eq] at hab hbc ⊢
  exact le_trans hab hbc

theorem leAt_total (d : Nat) : ∀ (a b : ℚ × ℚ), leAt d a b || leAt d b a := by
  intro a b
  simp only [leAt, Bool.or_eq_true, decide_eq_true_eq]
  exact le_total (coordAt d a) (coordAt d b)

theorem insLe_perm (le : α → α → Bool) (x : α) : ∀ l : List α, insLe le x l ~ x :: l
  | [] => Perm.refl _
  | y :: ys => by
    rw [insLe]
    by_cases h : le x y = true
    · rw [if_pos h]
    · rw [if_neg h]
      exact ((insLe_perm le x ys).cons y).trans (Perm.swap x y ys)

theorem sortLe_perm (le : α → α → Bool) : ∀ l : List α, sortLe le l ~ l
  | [] => Perm.refl _
  | x :: xs => (insLe_perm le x (sortLe le xs)).trans ((sortLe_perm le xs).cons x)

theorem pairwise_insLe (le : α → α → Bool)
    (htrans : ∀ a b c, le a b → le b c → le a c)
    (htot : ∀ a b, le a b || le b a) (x : α) :
    ∀ l : List α, l.Pairwise (le · ·) → (insLe le x l).Pairwise (le · ·)
  | [], _ => by simp [insLe]
  | y :: ys, h => by
    rw [insLe]
    rcases List.pairwise_cons.mp h with ⟨hy, hys⟩
    by_cases hxy : le x y = true
    · rw [if_pos hxy]
      refine List.pairwise_cons.mpr ⟨?_, h⟩
      intro z hz
      rcases List.mem_cons.mp hz with rfl | hz
      · exact hxy
      · exact htrans x y z hxy (hy z hz)
    · rw [if_neg hxy]
      have hyx : le y x := by
        rcases Bool.or_eq_true_iff.mp (htot x y) with h1 | h1
        · exact absurd h1 hxy
        · exact h1
      refine List.pairwise_cons.mpr ⟨?_, pairwise_insLe le htrans htot x ys hys⟩
      intro z hz
      rcases List.mem_cons.mp ((insLe_perm le x ys).mem_iff.mp hz) with rfl | hz'
      · exact hyx
      · exact hy z hz'

theorem pairwise_sortLe (le : α → α → Bool)
    (htrans : ∀ a b c, le a b → le b c → le a c)
    (htot : ∀ a b, le a b || le b a) :
    ∀ l : List α, (sortLe le l).Pairwise (le · ·)
  | [] => by simp [sortLe]
  | x :: xs => pairwise_insLe le htrans htot x _ (pairwise_sortLe le htrans htot xs)

theorem buildAux_toList : ∀ (n d : Nat) (pts : List (ℚ × ℚ)), pts.length ≤ n →
    (buildAux n d pts).toList ~ pts := by
  intro n
  induction n with
  | zero =>
    intro d pts h
    have hnil : pts = [] := List.eq_nil_of_length_eq_zero (Nat.le_zero.mp h)
    subst hnil
    simp [buildAux, KdTree.toList]
  | succ n ih =>
    intro d pts h
    match pts with
    | [] => simp [buildAux, KdTree.toList]
    | p :: ps =>
      rw [buildAux]
      have hlen : (sortLe (leAt d) (p :: ps)).length = (p :: ps).length :=
        (sortLe_perm (leAt d) (p :: ps)).length_eq
      have hmlt : (p :: ps).length / 2 < (sortLe (leAt d) (p :: ps)).length := by
        rw [hlen]
        simp only [List.length_cons]
        omega
      have hL := ih (d + 1) ((sortLe (leAt d) (p :: ps)).take ((p :: ps).length / 2))
        (by rw [List.length_take]; simp at h ⊢; omega)
      have hR := ih (d + 1) ((sortLe (leAt d) (p :: ps)).drop ((p :: ps).length / 2 + 1))
        (by rw [List.length_drop, hlen]; simp at h ⊢; omega)
      have hgetD : (sortLe (leAt d) (p :: ps)).getD ((p :: ps).length / 2) (0, 0) =
          (sortLe (leAt d) (p :: ps))[(p :: ps).length / 2] := by
        rw [List.getD_eq_getElem?_getD, List.getElem?_eq_getElem hmlt]
        rfl
      simp only [KdTree.toList]
      calc (buildAux n (d + 1) ((sortLe (leAt d) (p :: ps)).take
              ((p :: ps).length / 2))).toList ++
            (sortLe (leAt d) (p :: ps)).getD ((p :: ps).length / 2) (0, 0) ::
            (buildAux n (d + 1) ((sortLe (leAt d) (p :: ps)).drop
              ((p :: ps).length / 2 + 1))).toList
          ~ (sortLe (leAt d) (p :: ps)).take ((p :: ps).length / 2) ++
            (sortLe (leAt d) (p :: ps)).getD ((p :: ps).length / 2) (0, 0) ::
            (sortLe (leAt d) (p :: ps)).drop ((p :: ps).length / 2 + 1) :=
            hL.append (hR.cons _)
        _ = sortLe (leAt d) (p :: ps) := by
            rw [hgetD, ← List.drop_eq_getElem_cons hmlt, List.take_append_drop]
        _ ~ p :: ps := sortLe_perm (leAt d) (p :: ps)

/-- The structural invariant of the modelled kd-tree: at a node split at
dimension `d`, every left descendant is at most the node in coordinate `d`
and every right descendant at least it. -/
inductive KdInv : KdTree → Prop where
  | leaf : KdInv .leaf
  | node {d : Nat} {p : ℚ × ℚ} {l r : KdTree} :
      (∀ q ∈ l.toList, coordAt d q ≤ coordAt d p) →
      (∀ q ∈ r.toList, coordAt d p ≤ coordAt d q) →
      KdInv l → KdInv r → KdInv (.node d p l r)

theorem buildAux_inv : ∀ (n d : Nat) (pts : List (ℚ × ℚ)), pts.length ≤ n →
    KdInv (buildAux n d pts) := by
  intro n
  induction n with
  | zero =>
    intro d pts h
    have hnil : pts = [] := List.eq_nil_of_length_eq_zero (Nat.le_zero.mp h)
    subst hnil
    exact KdInv.leaf
  | succ n ih =>
    intro d pts h
    match pts with
    | [] => exact KdInv.leaf
    | p :: ps =>
      rw [buildAux]
      have hlen : (sortLe (leAt d) (p :: ps)).length = (p :: ps).length :=
        (sortLe_perm (leAt d) (p :: ps)).length_eq
      have hmlt : (p :: ps).length / 2 < (sortLe (leAt d) (p :: ps)).length := by
        rw [hlen]
        simp only [List.length_cons]
        omega
      have hgetD : (sortLe (leAt d) (p :: ps)).getD ((p :: ps).length / 2) (0, 0) =
          (sortLe (leAt d) (p :: ps))[(p :: ps).length / 2] := by
        rw [List.getD_eq_getElem?_getD, List.getElem?_eq_getElem hmlt]
        rfl
      have hdecomp : sortLe (leAt d) (p :: ps) =
          (sortLe (leAt d) (p :: ps)).take ((p :: ps).length / 2) ++
            (sortLe (leAt d) (p :: ps))[(p :: ps).length / 2] ::
            (sortLe (leAt d) (p :: ps)).drop ((p :: ps).length / 2 + 1) := by
        rw [← List.drop_eq_getElem_cons hmlt, List.take_append_drop]
      have hsort : (sortLe (leAt d) (p :: ps)).Pairwise (leAt d · ·) :=
        pairwise_sortLe (leAt d) (leAt_trans d) (leAt_total d) (p :: ps)
      rw [hdecomp] at hsort
      have hparts := List.pairwise_append.mp hsort
      have hmid := List.pairwise_cons.mp hparts.2.1
      have hL := buildAux_toList n (d + 1)
        ((sortLe (leAt d) (p :: ps)).take ((p :: ps).length / 2))
        (by rw [List.length_take]; simp at h ⊢; omega)
      have hR := buildAux_toList n (d + 1)
        ((sortLe (leAt d) (p :: ps)).drop ((p :: ps).length / 2 + 1))
        (by rw [List.length_drop, hlen]; simp at h ⊢; omega)
      refine KdInv.node ?_ ?_
        (ih (d + 1) _ (by rw [List.length_take]; simp at h ⊢; omega))
        (ih (d + 1) _ (by rw [List.length_drop, hlen]; simp at h ⊢; omega))
      · intro q hq
        rw [hgetD]
        have hmem := hL.mem_iff.mp hq
        have := hparts.2.2 q hmem _ (List.mem_cons_self _ _)
        simpa [leAt] using this
      · intro q hq
        rw [hgetD]
        have hmem := hR.mem_iff.mp hq
        have := hmid.1 q hmem
        simpa [leAt] using this

theorem BuildTree_toList (pts : List (ℚ × ℚ)) : (BuildTree pts).toList ~ pts :=
  buildAux_toList _ _ _ le_rfl

theorem BuildTree_inv (pts : List (ℚ × ℚ)) : KdInv (BuildTree pts) :=
  buildAux_inv _ _ _ le_rfl

theorem inBox_dim_min {r0 r1 : KdRange} (d : Nat) {q : ℚ × ℚ}
    (h : inBox r0 r1 q = true) :
    (if d % 2 = 0 then r0 else r1).Min.le (.fin (coordAt d q)) = true := by
  simp only [inBox, inRange, Bool.and_eq_true] at h
  by_cases hd : d % 2 = 0
  · simp only [hd, if_pos, coordAt, if_true]
    exact h.1.1
  · simp only [hd, if_neg, coordAt, if_false]
    exact h.2.1

theorem inBox_dim_max {r0 r1 : KdRange} (d : Nat) {q : ℚ × ℚ}
    (h : inBox r0 r1 q = true) :
    (GoFloat.fin (coordAt d q)).le (if d % 2 = 0 then r0 else r1).Max = true := by
  simp only [inBox, inRange, Bool.and_eq_true] at h
  by_cases hd : d % 2 = 0
  · simp only [hd, if_pos, coordAt, if_true]
    exact h.1.2
  · simp only [hd, if_neg, coordAt, if_false]
    exact h.2.2

theorem filter_nil_of_min_prune {r0 r1 : KdRange} {d : Nat} {p : ℚ × ℚ}
    {ll : List (ℚ × ℚ)}
    (hg : (if d % 2 = 0 then r0 else r1).Min.le (.fin (coordAt d p)) = false)
    (hb : ∀ q ∈ ll, coordAt d q ≤ coordAt d p) :
    ll.filter (fun q => inBox r0 r1 q) = [] := by
  rw [List.filter_eq_nil_iff]
  intro q hq hbox
  have h1 := @inBox_dim_min r0 r1 d q (by simpa using hbox)
  have h2 := GoFloat.le_fin_mono _ (hb q hq) h1
  simp [hg] at h2

theorem filter_nil_of_max_prune {r0 r1 : KdRange} {d : Nat} {p : ℚ × ℚ}
    {ll : List (ℚ × ℚ)}
    (hg : (GoFloat.fin (coordAt d p)).le (if d % 2 = 0 then r0 else r1).Max = false)
    (hb : ∀ q ∈ ll, coordAt d p ≤ coordAt d q) :
    ll.filter (fun q => inBox r0 r1 q) = [] := by
  rw [List.filter_eq_nil_iff]
  intro q hq hbox
  have h1 := @inBox_dim_max r0 r1 d q (by simpa using hbox)
  have h2 := GoFloat.fin_le_mono _ (hb q hq) h1
  simp [hg] at h2

theorem findRange_perm_filter {r0 r1 : KdRange} :
    ∀ {t : KdTree}, KdInv t →
      t.findRange r0 r1 ~ t.toList.filter (fun q => inBox r0 r1 q) := by
  intro t hinv
  induction hinv with
  | leaf => simp [KdTree.findRange, KdTree.toList]
  | @node d p l r hl hr hinvl hinvr ihl ihr =>
    simp only [KdTree.findRange, KdTree.toList, List.filter_append]
    have hleft : (if (if d % 2 = 0 then r0 else r1).Min.le (.fin (coordAt d p)) then
        l.findRange r0 r1 else []) ~ l.toList.filter (fun q => inBox r0 r1 q) := by
      by_cases hg : (if d % 2 = 0 then r0 else r1).Min.le (.fin (coordAt d p)) = true
      · rw [if_pos hg]
        exact ihl
      · rw [if_neg hg, filter_nil_of_min_prune (Bool.not_eq_true _ ▸ hg) hl]
    have hright : (if (GoFloat.fin (coordAt d p)).le (if d % 2 = 0 then r0 else r1).Max then
        r.findRange r0 r1 else []) ~ r.toList.filter (fun q => inBox r0 r1 q) := by
      by_cases hg : (GoFloat.fin (coordAt d p)).le (if d % 2 = 0 then r0 else r1).Max = true
      · rw [if_pos hg]
        exact ihr
      · rw [if_neg hg, filter_nil_of_max_prune (Bool.not_eq_true _ ▸ hg) hr]
    have hmid : (if inBox r0 r1 p then [p] else []) ++
        r.toList.filter (fun q => inBox r0 r1 q) =
        (p :: r.toList).filter (fun q => inBox r0 r1 q) := by
      by_cases hb : inBox r0 r1 p = true <;>
        simp [List.filter_cons, hb]
    rw [List.append_assoc, ← hmid]
    exact hleft.append ((Perm.refl _).append hright)

theorem BuildTree_findRange (pts : List (ℚ × ℚ)) (r0 r1 : KdRange) :
    (BuildTree pts).findRange r0 r1 ~ pts.filter (fun q => inBox r0 r1 q) :=
  (findRange_perm_filter (BuildTree_inv pts)).trans ((BuildTree_toList pts).filter _)

/-! Glue between the pipeline, the table invariant and the range query. -/

theorem inRange_fin_iff {a b c : ℚ} :
    inRange ⟨.fin a, .fin b⟩ c = true ↔ a ≤ c ∧ c ≤ b := by
  simp [inRange, GoFloat.le]

theorem tableWF_lookup_self {locs : LocationLookup} (h : TableWF locs)
    {e : String × CrimeLocation} (he : e ∈ locs) :
    lookupKey (GetCoordinateKey e.2.Point.Lat e.2.Point.Lng) locs = some e.2 := by
  rw [h.2 e he]
  exact lookupKey_mem_of_nodup h.1 (by simpa using he)

theorem FindNear_some {finder : CrimeFinder} {t : KdTree} (h : finder.Tree = some t)
    (q : QueryPoint) :
    finder.FindNear q = some ⟨q, (t.findRange
      ⟨q.Lat.sub (.fin HALF_MILE_LAT), q.Lat.add (.fin HALF_MILE_LAT)⟩
      ⟨q.Lng.sub (.fin HALF_MILE_LNG), q.Lng.add (.fin HALF_MILE_LNG)⟩).filterMap
      fun p => lookupKey (GetCoordinateKey p.1 p.2) finder.LocationLookup⟩ := by
  unfold CrimeFinder.FindNear
  rw [h]

set_option maxHeartbeats 2000000 in
theorem FindNear_mkFinder_perm {types : List String} {locs : LocationLookup}
    (hWF : TableWF locs) (q : QueryPoint) :
    ∃ res, (mkFinder types locs).FindNear q = some res ∧ res.Query = q ∧
      res.Locations ~ (locs.filter fun e =>
        inBox ⟨q.Lat.sub (.fin HALF_MILE_LAT), q.Lat.add (.fin HALF_MILE_LAT)⟩
          ⟨q.Lng.sub (.fin HALF_MILE_LNG), q.Lng.add (.fin HALF_MILE_LNG)⟩
          (e.2.Point.Lat, e.2.Point.Lng)).map Prod.snd := by
  refine ⟨⟨q, ((BuildTree (locs.map fun e => (e.2.Point.Lat, e.2.Point.Lng))).findRange
      ⟨q.Lat.sub (.fin HALF_MILE_LAT), q.Lat.add (.fin HALF_MILE_LAT)⟩
      ⟨q.Lng.sub (.fin HALF_MILE_LNG), q.Lng.add (.fin HALF_MILE_LNG)⟩).filterMap
      fun p => lookupKey (GetCoordinateKey p.1 p.2) locs⟩, ?_, rfl, ?_⟩
  · exact FindNear_some rfl q
  have h1 := BuildTree_findRange (locs.map fun e => (e.2.Point.Lat, e.2.Point.Lng))
    ⟨q.Lat.sub (.fin HALF_MILE_LAT), q.Lat.add (.fin HALF_MILE_LAT)⟩
    ⟨q.Lng.sub (.fin HALF_MILE_LNG), q.Lng.add (.fin HALF_MILE_LNG)⟩
  refine (h1.filterMap fun p => lookupKey (GetCoordinateKey p.1 p.2) locs).trans ?_
  rw [List.filter_map, List.filterMap_map]
  rw [@filterMap_eq_map_of_forall _ _ _ _ Prod.snd]
  · exact Perm.refl _
  · intro e he
    exact tableWF_lookup_self hWF (List.mem_of_mem_filter he)

theorem TableWF_nil : TableWF [] := ⟨by simp, by simp⟩

/-- The condition under which `readCrimes` keeps a row. -/
def coordFilter (row : CsvRow) : Bool :=
  match row[8]?, row[9]? with
  | some a, some b =>
    !(decide (a = "") || decide (b = "")) && !(!isFloat a || !isFloat b)
  | _, _ => false

theorem readCrimes_eq_filter : ∀ (rows : List CsvRow), (∀ r ∈ rows, 10 ≤ r.length) →
    readCrimes rows = .ok (rows.filter coordFilter) := by
  intro rows
  induction rows with
  | nil => intro _; simp [readCrimes]
  | cons row rest ih =>
    intro h
    have hlen := h row (List.mem_cons_self _ _)
    obtain ⟨a, h8⟩ := get?_some_of_len (show 8 < row.length by omega)
    obtain ⟨b, h9⟩ := get?_some_of_len (show 9 < row.length by omega)
    rw [readCrimes, h8, h9, ih fun r hr => h r (List.mem_cons_of_mem _ hr)]
    by_cases ha : a = "" <;> by_cases hb : b = "" <;>
      by_cases hfa : isFloat a <;> by_cases hfb : isFloat b <;>
      simp [List.filter_cons, coordFilter, h8, h9, ha, hb, hfa, hfb]

theorem loadRows_total : ∀ (rows : List CsvRow), (∀ r ∈ rows, 10 ≤ r.length) →
    ∀ (types : List String) (locs : LocationLookup) (n : Nat),
      ∃ out lg, loadRows types locs n rows = (.ok out, lg) := by
  intro rows
  induction rows with
  | nil =>
    intro _ types locs n
    exact ⟨⟨locs, types, n⟩, [], by rw [loadRows]⟩
  | cons row rest ih =>
    intro h types locs n
    have hlen := h row (List.mem_cons_self _ _)
    have hrest : ∀ r ∈ rest, 10 ≤ r.length := fun r hr => h r (List.mem_cons_of_mem _ hr)
    rcases floatCoordsFromRow_cases hlen with ⟨c, hf, hc⟩ | ⟨lg0, hf, hc⟩
    · have hgo := @getOrCreate_ok locs row _ hlen hc
      rw [loadRows, hgo]
      obtain ⟨idStr, h0⟩ := get?_some_of_len (show 0 < row.length by omega)
      simp only [h0]
      rcases hid : parseInt64? idStr with _ | id
      · obtain ⟨out, lg, hl⟩ := ih hrest types
          (match lookupKey (GetCoordinateKey c.1 c.2) locs with
            | some _ => locs
            | none => locs ++ [(GetCoordinateKey c.1 c.2, ⟨⟨c.1, c.2⟩, []⟩)]) n
        exact ⟨out, [] ++ lg, by simp [hl]⟩
      · obtain ⟨dateS, h1⟩ := get?_some_of_len (show 1 < row.length by omega)
        obtain ⟨timeS, h2⟩ := get?_some_of_len (show 2 < row.length by omega)
        obtain ⟨tyS, h3⟩ := get?_some_of_len (show 3 < row.length by omega)
        simp only [h3, h1, h2]
        obtain ⟨out, lg, hl⟩ := ih hrest
          (if CrimeTypes.Contains types tyS then types else types ++ [tyS])
          (appendCrime
            (match lookupKey (GetCoordinateKey c.1 c.2) locs with
              | some _ => locs
              | none => locs ++ [(GetCoordinateKey c.1 c.2, ⟨⟨c.1, c.2⟩, []⟩)])
            (GetCoordinateKey c.1 c.2) ⟨id, dateS, timeS, tyS⟩) (n + 1)
        exact ⟨out, [] ++ lg, by simp [hl]⟩
    · have hgo : getOrCreateFromCsvRow locs row = (.err, lg0) := by
        simp [getOrCreateFromCsvRow, hf]
      rw [loadRows, hgo]
      obtain ⟨out, lg, hl⟩ := ih hrest types locs n
      exact ⟨out, lg0 ++ lg, by simp [hl]⟩

theorem NewCrimeFinder_shape {rows : List CsvRow} {finder : CrimeFinder} {lg : List String}
    (h : NewCrimeFinder rows = (.ok finder, lg)) :
    TableWF finder.LocationLookup ∧
      finder = mkFinder finder.CrimeTypes finder.LocationLookup := by
  rw [NewCrimeFinder] at h
  rcases hr : readCrimes rows with _ | _ | rows' <;> rw [hr] at h
  · cases h
  · cases h
  dsimp only at h
  unfold loadFromCsv at h
  rcases hlr : loadRows [] [] 0 rows' with ⟨lrres, lrlg⟩
  rw [hlr] at h
  cases lrres with
  | panic => simp at h
  | err => simp at h
  | ok out =>
    dsimp only at h
    have hfinder : finder = mkFinder out.types out.locs := by
      have := congrArg Prod.fst h
      simp at this
      rw [← this]
    have hWF : TableWF out.locs := loadRows_wf rows' [] [] 0 out lrlg TableWF_nil hlr
    subst hfinder
    exact ⟨hWF, rfl⟩

theorem mem_findRange_inBox {r0 r1 : KdRange} :
    ∀ {t : KdTree} {p : ℚ × ℚ}, p ∈ t.findRange r0 r1 → inBox r0 r1 p = true := by
  intro t
  induction t with
  | leaf =>
    intro p h
    simp [KdTree.findRange] at h
  | node d pt l r ihl ihr =>
    intro p h
    simp only [KdTree.findRange, List.mem_append] at h
    rcases h with (h | h) | h
    · by_cases hc : (if d % 2 = 0 then r0 else r1).Min.le (.fin (coordAt d pt)) = true
      · rw [if_pos hc] at h
        exact ihl h
      · rw [if_neg hc] at h
        simp at h
    · by_cases hb : inBox r0 r1 pt = true
      · rw [if_pos hb] at h
        simp at h
        rw [h]
        exact hb
      · rw [if_neg hb] at h
        simp at h
    · by_cases hc : (GoFloat.fin (coordAt d pt)).le (if d % 2 = 0 then r0 else r1).Max = true
      · rw [if_pos hc] at h
        exact ihr h
      · rw [if_neg hc] at h
        simp at h

theorem inRange_nonfinite {g : GoFloat} (hg : g.finite = false) (x c : ℚ) :
    inRange ⟨g.sub (.fin x), g.add (.fin x)⟩ c = false := by
  cases g <;>
    simp_all [GoFloat.finite, GoFloat.sub, GoFloat.add, GoFloat.neg, inRange, GoFloat.le]

theorem findRange_empty_nonfinite {qLat qLng : GoFloat} {t : KdTree}
    (h : qLat.finite = false ∨ qLng.finite = false) :
    t.findRange ⟨qLat.sub (.fin HALF_MILE_LAT), qLat.add (.fin HALF_MILE_LAT)⟩
      ⟨qLng.sub (.fin HALF_MILE_LNG), qLng.add (.fin HALF_MILE_LNG)⟩ = [] := by
  rw [List.eq_nil_iff_forall_not_mem]
  intro p hp
  have hbox := mem_findRange_inBox hp
  rcases h with h | h
  · have hr := inRange_nonfinite h HALF_MILE_LAT p.1
    simp [inBox, hr] at hbox
  · have hr := inRange_nonfinite h HALF_MILE_LNG p.2
    simp [inBox, hr] at hbox

theorem inBox_finite_query (ql qg : ℚ) (p : ℚ × ℚ) :
    inBox ⟨(GoFloat.fin ql).sub (.fin HALF_MILE_LAT), (GoFloat.fin ql).add (.fin HALF_MILE_LAT)⟩
      ⟨(GoFloat.fin qg).sub (.fin HALF_MILE_LNG), (GoFloat.fin qg).add (.fin HALF_MILE_LNG)⟩
      p = true ↔
      (ql - HALF_MILE_LAT ≤ p.1 ∧ p.1 ≤ ql + HALF_MILE_LAT ∧
        qg - HALF_MILE_LNG ≤ p.2 ∧ p.2 ≤ qg + HALF_MILE_LNG) := by
  simp [inBox, GoFloat.fin_sub_fin, GoFloat.fin_add_fin, inRange_fin_iff, and_assoc]

theorem filter_point_le_one {locs : LocationLookup} (hWF : TableWF locs) (p : Point) :
    (locs.filter fun e => decide (e.2.Point = p)).length ≤ 1 := by
  induction locs with
  | nil => simp
  | cons e rest ih =>
    have hWFr : TableWF rest := by
      refine ⟨(List.nodup_cons.mp hWF.1).2, fun x hx => hWF.2 x
        (List.mem_cons_of_mem e hx)⟩
    by_cases hp : e.2.Point = p
    · have hrest : rest.filter (fun x => decide (x.2.Point = p)) = [] := by
        rw [List.filter_eq_nil_iff]
        intro x hx hxp
        simp only [decide_eq_true_eq] at hxp
        have hk : x.1 = e.1 := by
          rw [← hWF.2 x (List.mem_cons_of_mem e hx), ← hWF.2 e (List.mem_cons_self e rest),
            hxp, hp]
        have hnd := List.nodup_cons.mp hWF.1
        exact hnd.1 (hk ▸ List.mem_map.mpr ⟨x, hx, rfl⟩)
      simp [List.filter_cons, hp, hrest]
    · simpa [List.filter_cons, hp] using ih hWFr

/-! Concrete data used by witnesses and counterexamples. -/

/-- A well-formed reference row: id 1, coordinates (45.1, -122.3). -/
def wRow : CsvRow := ["1", "1/1/2013", "04:30", "Burglary", "", "", "", "", "45.1", "-122.3"]

/-- The dedup table `loadFromCsv [wRow]` builds. -/
def wTable : LocationLookup :=
  [("45.1,-122.3", ⟨⟨451 / 10, -1223 / 10⟩, [⟨1, "1/1/2013", "04:30", "Burglary"⟩]⟩)]

/-- The finder `NewCrimeFinder [wRow]` builds. -/
def wFinder : CrimeFinder := mkFinder ["Burglary"] wTable

/-- A row whose latitude column is non-empty but not float-parseable. -/
def badCoordRow : CsvRow :=
  ["1", "1/1/2013", "04:30", "Burglary", "", "", "", "", "not-a-float", "-122.3"]

/-- A row with parseable coordinates and an unparseable id. -/
def badIdRow : CsvRow :=
  ["not-an-int", "1/1/2013", "04:30", "Burglary", "", "", "", "", "45.1", "-122.3"]

/-- A row with only nine columns. -/
def shortRow : CsvRow := ["1", "1/1/2013", "04:30", "Burglary", "", "", "", "", "45.1"]

unseal Rat.mul Rat.add Rat.sub Rat.inv Rat.ofScientific in
theorem wBuild : NewCrimeFinder [wRow] = (.ok wFinder, ["Loaded 1 crimes and 1 locations"]) := by
  have h1 : readCrimes [wRow] = .ok [wRow] := by decide
  have h2 : loadFromCsv [wRow] =
      (.ok ⟨wTable, ["Burglary"], 1⟩, ["Loaded 1 crimes and 1 locations"]) := by decide
  rw [NewCrimeFinder, h1]
  dsimp only
  rw [h2]
  rfl

/-- The repository's own encoder test vector (`TestSearchResultToJson`). -/
def tGoodResult : SearchResult :=
  ⟨⟨.fin (451 / 10), .fin (-1223 / 10)⟩,
    [⟨⟨451 / 10, -1223 / 10⟩,
      [⟨1, "1/1/2013", "04:30", "Burglary"⟩, ⟨2, "1/2/2013", "04:45", "Robbery"⟩]⟩]⟩

/-- The same shape with a double quote embedded in the crime-type string. -/
def tQuoteResult : SearchResult :=
  ⟨⟨.fin (451 / 10), .fin (-1223 / 10)⟩,
    [⟨⟨451 / 10, -1223 / 10⟩, [⟨1, "1/1/2013", "04:30", "a\"b"⟩]⟩]⟩

set_option maxRecDepth 16384 in
unseal Rat.mul Rat.add Rat.sub Rat.inv Rat.ofScientific in
/-- C1: `SearchResult.ToJson` interpolates string fields verbatim.  On the
repository's own quote-free test vector it reproduces exactly the expected
bytes, which are valid JSON; but a crime-type string containing a double
quote is emitted unescaped and the resulting byte sequence is rejected by an
RFC 8259 JSON parser.  The spec's escaping requirement is the documented
intent (it calls the unescaped concatenation a correctness gap in the
source), so this is a code bug, witnessed here at a concrete failing input. -/
theorem toJson_unescaped_quote_breaks_json :
    SearchResult.ToJson tGoodResult =
      "\x7b\"query\":\x7b\"lat\":45.1,\"lng\":-122.3\x7d,\"locations\":[\x7b\"point\":\x7b\"lat\":45.1,\"lng\":-122.3\x7d,\"crimes\":[\x7b\"id\":1,\"date\":\"1/1/2013\",\"time\":\"04:30\",\"type\":\"Burglary\"\x7d,\x7b\"id\":2,\"date\":\"1/2/2013\",\"time\":\"04:45\",\"type\":\"Robbery\"\x7d]\x7d]\x7d" ∧
    isValidJson (SearchResult.ToJson tGoodResult) = true ∧
    SearchResult.ToJson tQuoteResult =
      "\x7b\"query\":\x7b\"lat\":45.1,\"lng\":-122.3\x7d,\"locations\":[\x7b\"point\":\x7b\"lat\":45.1,\"lng\":-122.3\x7d,\"crimes\":[\x7b\"id\":1,\"date\":\"1/1/2013\",\"time\":\"04:30\",\"type\":\"a\"b\"\x7d]\x7d]\x7d" ∧
    isValidJson (SearchResult.ToJson tQuoteResult) = false := by
  refine ⟨by decide, by decide, by decide, by decide⟩

/-- C2: for every index `NewCrimeFinder` builds and every finite query point,
`FindNear` succeeds and returns exactly the locations of the dedup table
whose coordinates lie in the closed axis-aligned box
`[lat - HALF_MILE_LAT, lat + HALF_MILE_LAT] x [lng - HALF_MILE_LNG,
lng + HALF_MILE_LNG]` around the query: membership is an inclusive
inequality in each dimension, so a location exactly at the boundary is
included and any location past it is excluded. -/
theorem findNear_returns_exactly_box (rows : List CsvRow) (finder : CrimeFinder)
    (lg : List String) (hbuild : NewCrimeFinder rows = (.ok finder, lg)) (ql qg : ℚ) :
    ∃ res, finder.FindNear ⟨.fin ql, .fin qg⟩ = some res ∧
      res.Query = ⟨.fin ql, .fin qg⟩ ∧
      ∀ loc, loc ∈ res.Locations ↔
        (loc ∈ finder.LocationLookup.map Prod.snd ∧
          ql - HALF_MILE_LAT ≤ loc.Point.Lat ∧ loc.Point.Lat ≤ ql + HALF_MILE_LAT ∧
          qg - HALF_MILE_LNG ≤ loc.Point.Lng ∧ loc.Point.Lng ≤ qg + HALF_MILE_LNG) := by
  obtain ⟨hWF, hshape⟩ := NewCrimeFinder_shape hbuild
  obtain ⟨res, hfn, hq, hperm⟩ := FindNear_mkFinder_perm hWF ⟨.fin ql, .fin qg⟩
  refine ⟨res, ?_, hq, ?_⟩
  · conv_lhs => rw [hshape]
    exact hfn
  · intro loc
    rw [hperm.mem_iff]
    constructor
    · intro hmem
      obtain ⟨e, he, heq⟩ := List.mem_map.mp hmem
      have hef := List.mem_filter.mp he
      refine ⟨List.mem_map.mpr ⟨e, hef.1, heq⟩, ?_⟩
      have hbox := (inBox_finite_query ql qg (e.2.Point.Lat, e.2.Point.Lng)).mp hef.2
      rw [← heq]
      simpa using hbox
    · rintro ⟨hmem, hbox⟩
      obtain ⟨e, he, heq⟩ := List.mem_map.mp hmem
      refine List.mem_map.mpr ⟨e, List.mem_filter.mpr ⟨he, ?_⟩, heq⟩
      refine (inBox_finite_query ql qg _).mpr ?_
      rw [heq]
      simpa using hbox

/-- Witness for C2: the concrete one-row index queried at its own coordinate. -/
theorem findNear_returns_exactly_box_witness :
    ∃ res, wFinder.FindNear ⟨.fin (451 / 10), .fin (-1223 / 10)⟩ = some res ∧
      res.Query = ⟨.fin (451 / 10), .fin (-1223 / 10)⟩ ∧
      ∀ loc, loc ∈ res.Locations ↔
        (loc ∈ wFinder.LocationLookup.map Prod.snd ∧
          451 / 10 - HALF_MILE_LAT ≤ loc.Point.Lat ∧
          loc.Point.Lat ≤ 451 / 10 + HALF_MILE_LAT ∧
          -1223 / 10 - HALF_MILE_LNG ≤ loc.Point.Lng ∧
          loc.Point.Lng ≤ -1223 / 10 + HALF_MILE_LNG) :=
  findNear_returns_exactly_box [wRow] wFinder ["Loaded 1 crimes and 1 locations"]
    wBuild (451 / 10) (-1223 / 10)

/-- C3: ingesting rows with parseable coordinates yields a dedup table with
distinct keys — exactly one location per distinct coordinate key, a key being
present iff some row carries it — whose location at key `k` holds exactly
the crimes of the rows keyed `k` (those with parseable ids), in row order;
at most one entry of the table carries any given coordinate pair; and a
`getOrCreateFromCsvRow` call whose key is already present returns the table
unchanged, so a repeated coordinate never creates a second location. -/
theorem dedup_one_location_per_coordinate (rows : List CsvRow)
    (h : ∀ r ∈ rows, RowOk r) :
    ∃ out, loadFromCsv rows = (.ok out,
        ["Loaded " ++ toString out.numCrimes ++ " crimes and " ++
          toString out.locs.length ++ " locations"]) ∧
      (out.locs.map Prod.fst).Nodup ∧
      (∀ k, (∃ loc, lookupKey k out.locs = some loc) ↔ ∃ r ∈ rows, rowKey? r = some k) ∧
      (∀ k loc, lookupKey k out.locs = some loc → loc.Crimes = crimesFor k rows) ∧
      (∀ p : Point, (out.locs.filter fun e => decide (e.2.Point = p)).length ≤ 1) ∧
      (∀ (locs : LocationLookup) (row : CsvRow) (key : String) (locs' : LocationLookup)
          (lg' : List String), getOrCreateFromCsvRow locs row = (.ok (key, locs'), lg') →
        (∃ loc0, lookupKey key locs = some loc0) → locs' = locs) := by
  obtain ⟨out, hload, hchar⟩ := loadRows_spec rows h [] [] 0
  have hWF : TableWF out.locs := loadRows_wf rows [] [] 0 out [] TableWF_nil hload
  refine ⟨out, by rw [loadFromCsv, hload]; rfl, hWF.1, ?_, ?_,
    fun p => filter_point_le_one hWF p, ?_⟩
  · intro k
    have hc := hchar k
    rw [show lookupKey k ([] : LocationLookup) = none from rfl] at hc
    constructor
    · rintro ⟨loc, hloc⟩
      rw [hloc] at hc
      rcases hf : rows.find? (fun r => decide (rowKey? r = some k)) with _ | r <;>
        rw [hf] at hc
      · cases hc
      · have hr := List.find?_some hf
        simp only [decide_eq_true_eq] at hr
        exact ⟨r, List.mem_of_find?_eq_some hf, hr⟩
    · rintro ⟨r, hr, hkey⟩
      rcases hf : rows.find? (fun r => decide (rowKey? r = some k)) with _ | r'
      · exfalso
        have h2 := List.find?_eq_none.mp hf r hr
        simp [hkey] at h2
      · rw [hf] at hc
        exact ⟨_, hc⟩
  · intro k loc hloc
    have hc := hchar k
    rw [show lookupKey k ([] : LocationLookup) = none from rfl, hloc] at hc
    rcases hf : rows.find? (fun r => decide (rowKey? r = some k)) with _ | r <;>
      rw [hf] at hc
    · cases hc
    · injection hc with h2
      rw [h2]
  · intro locs row key locs' lg' hgo hex
    obtain ⟨loc0, hl0⟩ := hex
    rcases hf : floatCoordsFromRow row with ⟨fres, flg⟩
    rw [getOrCreateFromCsvRow, hf] at hgo
    cases fres with
    | panic => cases hgo
    | err => cases hgo
    | ok c =>
      rcases hlk : lookupKey (GetCoordinateKey c.1 c.2) locs with _ | loc1
      · simp only [hlk] at hgo
        cases hgo
        rw [hlk] at hl0
        cases hl0
      · simp only [hlk] at hgo
        cases hgo
        rfl

unseal Rat.mul Rat.add Rat.sub Rat.inv Rat.ofScientific in
/-- Witness for C3: two copies of the reference row collapse to one
location holding both its crimes. -/
theorem dedup_one_location_per_coordinate_witness :
    (∀ r ∈ [wRow, wRow], RowOk r) ∧
      (∃ out, loadFromCsv [wRow, wRow] = (.ok out,
          ["Loaded " ++ toString out.numCrimes ++ " crimes and " ++
            toString out.locs.length ++ " locations"]) ∧
        (out.locs.map Prod.fst).Nodup ∧
        (∀ k, (∃ loc, lookupKey k out.locs = some loc) ↔
          ∃ r ∈ [wRow, wRow], rowKey? r = some k) ∧
        (∀ k loc, lookupKey k out.locs = some loc → loc.Crimes = crimesFor k [wRow, wRow]) ∧
        (∀ p : Point, (out.locs.filter fun e => decide (e.2.Point = p)).length ≤ 1) ∧
        (∀ (locs : LocationLookup) (row : CsvRow) (key : String) (locs' : LocationLookup)
            (lg' : List String), getOrCreateFromCsvRow locs row = (.ok (key, locs'), lg') →
          (∃ loc0, lookupKey key locs = some loc0) → locs' = locs)) :=
  ⟨by decide, dedup_one_location_per_coordinate [wRow, wRow] (by decide)⟩

unseal Rat.mul Rat.add Rat.sub Rat.inv Rat.ofScientific in
/-- C4 counterexample: a row whose latitude column is non-empty but not
float-parseable does not make ingestion fail — `readCrimes` silently drops
it, and the whole build succeeds with an empty table and no error. -/
theorem malformed_coordinate_row_silently_dropped :
    readCrimes [badCoordRow] = .ok [] ∧
      NewCrimeFinder [badCoordRow] =
        (.ok (mkFinder [] []), ["Loaded 0 crimes and 0 locations"]) := by
  have h1 : readCrimes [badCoordRow] = .ok [] := by decide
  refine ⟨h1, ?_⟩
  have h2 : loadFromCsv [] = (.ok ⟨[], [], 0⟩, ["Loaded 0 crimes and 0 locations"]) := by
    decide
  rw [NewCrimeFinder, h1]
  dsimp only
  rw [h2]

/-- C4 amended: a row with an empty coordinate column and a row with a
non-empty unparseable coordinate column are treated alike — `readCrimes`
silently drops both, keeping exactly the rows whose columns 8 and 9 are
non-empty and float-parseable, so ingestion never fails on either kind.
The coordinate-parse error exists one level down: on such a row
`getOrCreateFromCsvRow` returns an error without producing a table, and the
`loadFromCsv` loop recovers by skipping the row, its result being that of
the remaining rows. -/
theorem coordinate_row_policy_amended (rows : List CsvRow)
    (hlen : ∀ r ∈ rows, 10 ≤ r.length) :
    readCrimes rows = .ok (rows.filter coordFilter) ∧
      (∀ (locs : LocationLookup) (row : CsvRow), 10 ≤ row.length →
        rowCoords? row = none → ∃ lgE, getOrCreateFromCsvRow locs row = (.err, lgE)) ∧
      (∀ (types : List String) (locs : LocationLookup) (n : Nat) (row : CsvRow)
          (rest : List CsvRow), 10 ≤ row.length → rowCoords? row = none →
        (loadRows types locs n (row :: rest)).1 = (loadRows types locs n rest).1) := by
  refine ⟨readCrimes_eq_filter rows hlen, fun locs row hl hc => getOrCreate_err hl hc, ?_⟩
  intro types locs n row rest hl hc
  obtain ⟨lgE, hgo⟩ := @getOrCreate_err locs row hl hc
  rw [loadRows, hgo]

unseal Rat.mul Rat.add Rat.sub Rat.inv Rat.ofScientific in
/-- Witness for the amended C4 at the concrete unparseable-coordinate row. -/
theorem coordinate_row_policy_amended_witness :
    (∀ r ∈ [badCoordRow], 10 ≤ r.length) ∧
      (readCrimes [badCoordRow] = .ok ([badCoordRow].filter coordFilter) ∧
        (∀ (locs : LocationLookup) (row : CsvRow), 10 ≤ row.length →
          rowCoords? row = none → ∃ lgE, getOrCreateFromCsvRow locs row = (.err, lgE)) ∧
        (∀ (types : List String) (locs : LocationLookup) (n : Nat) (row : CsvRow)
            (rest : List CsvRow), 10 ≤ row.length → rowCoords? row = none →
          (loadRows types locs n (row :: rest)).1 = (loadRows types locs n rest).1)) :=
  ⟨by decide, coordinate_row_policy_amended [badCoordRow] (by decide)⟩

unseal Rat.mul Rat.add Rat.sub Rat.inv Rat.ofScientific in
/-- C5 counterexample: loading one row with parseable coordinates and an
unparseable id succeeds, creates the location with no crimes — and logs
nothing about the id error: the entire log is the summary line. -/
theorem malformed_id_row_not_logged :
    loadFromCsv [badIdRow] =
      (.ok ⟨[("45.1,-122.3", ⟨⟨451 / 10, -1223 / 10⟩, []⟩)], [], 0⟩,
        ["Loaded 0 crimes and 1 locations"]) := by decide

/-- C5 amended: a row whose id column does not parse as an int64 does not
abort the build — the row is skipped silently, nothing being logged about it
(the whole log is the single summary line), it contributes no crime record,
its coordinate still contributes its location to the dedup table, and every
other row is ingested normally (each key holds exactly the crimes of its
rows with parseable ids). -/
theorem malformed_id_row_skipped_amended (rows : List CsvRow)
    (h : ∀ r ∈ rows, RowOk r) (row : CsvRow) (hmem : row ∈ rows)
    (hbad : ∀ s, row[0]? = some s → parseInt64? s = none) :
    ∃ out, loadFromCsv rows = (.ok out,
        ["Loaded " ++ toString out.numCrimes ++ " crimes and " ++
          toString out.locs.length ++ " locations"]) ∧
      rowCrime? row = none ∧
      (∀ k, rowKey? row = some k → ∃ loc, lookupKey k out.locs = some loc) ∧
      (∀ k loc, lookupKey k out.locs = some loc → loc.Crimes = crimesFor k rows) := by
  obtain ⟨out, hload, hchar⟩ := loadRows_spec rows h [] [] 0
  have hlen := (h row hmem).1
  obtain ⟨s0, h0⟩ := get?_some_of_len (show 0 < row.length by omega)
  refine ⟨out, by rw [loadFromCsv, hload]; rfl, by simp [rowCrime?, h0, hbad s0 h0], ?_, ?_⟩
  · intro k hk
    have hc := hchar k
    rw [show lookupKey k ([] : LocationLookup) = none from rfl] at hc
    rcases hf : rows.find? (fun r => decide (rowKey? r = some k)) with _ | r
    · exfalso
      have h2 := List.find?_eq_none.mp hf row hmem
      simp [hk] at h2
    · rw [hf] at hc
      exact ⟨_, hc⟩
  · intro k loc hloc
    have hc := hchar k
    rw [show lookupKey k ([] : LocationLookup) = none from rfl, hloc] at hc
    rcases hf : rows.find? (fun r => decide (rowKey? r = some k)) with _ | r <;>
      rw [hf] at hc
    · cases hc
    · injection hc with h2
      rw [h2]

unseal Rat.mul Rat.add Rat.sub Rat.inv Rat.ofScientific in
/-- Witness for the amended C5 at the concrete bad-id row. -/
theorem malformed_id_row_skipped_amended_witness :
    (∀ r ∈ [badIdRow], RowOk r) ∧ badIdRow ∈ [badIdRow] ∧
      (∃ out, loadFromCsv [badIdRow] = (.ok out,
          ["Loaded " ++ toString out.numCrimes ++ " crimes and " ++
            toString out.locs.length ++ " locations"]) ∧
        rowCrime? badIdRow = none ∧
        (∀ k, rowKey? badIdRow = some k → ∃ loc, lookupKey k out.locs = some loc) ∧
        (∀ k loc, lookupKey k out.locs = some loc → loc.Crimes = crimesFor k [badIdRow])) :=
  ⟨by decide, by decide,
    malformed_id_row_skipped_amended [badIdRow] (by decide) badIdRow (by decide)
      (fun s hs => by
        have h0 : badIdRow[0]? = some "not-an-int" := rfl
        rw [h0] at hs
        cases hs
        decide)⟩

unseal Rat.mul Rat.add Rat.sub Rat.inv Rat.ofScientific in
/-- C6 counterexample: with a built index (from the reference row), a query
whose latitude is NaN does not fail with any error: `FindNear` succeeds and
returns an empty location list.  Invoked before any build (nil tree) the
call dereferences a nil pointer — a crash, not an `IndexNotBuilt` error
value; the codebase defines neither `IndexNotBuilt` nor
`InvalidQueryPoint`. -/
theorem findNear_nonfinite_query_not_rejected :
    wFinder.FindNear ⟨.nan, .fin (-1223 / 10)⟩ =
        some ⟨⟨.nan, .fin (-1223 / 10)⟩, []⟩ ∧
      CrimeFinder.FindNear ⟨wTable, ["Burglary"], none⟩
        ⟨.fin (451 / 10), .fin (-1223 / 10)⟩ = none := by
  exact ⟨by decide, rfl⟩

/-- C6 amended: `FindNear` has no error taxonomy.  Called before the index
is built (nil tree) it crashes on a nil dereference (modelled as `none`)
instead of returning an `IndexNotBuilt` error; called on any built tree with
a query containing a non-finite coordinate it is not rejected: every range
comparison against the resulting NaN or infinite bound is false, so it
succeeds with an empty location list instead of an `InvalidQueryPoint`
error. -/
theorem findNear_error_handling_amended :
    (∀ (finder : CrimeFinder) (q : QueryPoint), finder.Tree = none →
      finder.FindNear q = none) ∧
    (∀ (finder : CrimeFinder) (t : KdTree) (q : QueryPoint), finder.Tree = some t →
      q.Lat.finite = false ∨ q.Lng.finite = false →
      finder.FindNear q = some ⟨q, []⟩) := by
  constructor
  · intro finder q h
    unfold CrimeFinder.FindNear
    rw [h]
  · intro finder t q ht hnf
    rw [FindNear_some ht q, findRange_empty_nonfinite hnf]
    rfl

/-- Witness for the amended C6: a nil-tree finder crashes; the reference
finder accepts a NaN query and returns an empty result. -/
theorem findNear_error_handling_amended_witness :
    ((⟨wTable, ["Burglary"], none⟩ : CrimeFinder).Tree = none ∧
      CrimeFinder.FindNear ⟨wTable, ["Burglary"], none⟩ ⟨.fin 0, .fin 0⟩ = none) ∧
    (wFinder.Tree = some (BuildTree (wTable.map fun e => (e.2.Point.Lat, e.2.Point.Lng))) ∧
      (⟨.nan, .fin 0⟩ : QueryPoint).Lat.finite = false ∧
      wFinder.FindNear ⟨.nan, .fin 0⟩ = some ⟨⟨.nan, .fin 0⟩, []⟩) :=
  ⟨⟨rfl, findNear_error_handling_amended.1 _ _ rfl⟩,
   ⟨rfl, rfl, findNear_error_handling_amended.2 wFinder _ _ rfl (Or.inl rfl)⟩⟩

/-- C7: for a built index and a finite query point whose box contains no
stored location, `FindNear` succeeds with an empty location list — not an
error — and encoding that result yields exactly the shape with an empty
locations array. -/
theorem findNear_empty_box_ok (rows : List CsvRow) (finder : CrimeFinder)
    (lg : List String) (hbuild : NewCrimeFinder rows = (.ok finder, lg)) (ql qg : ℚ)
    (hempty : ∀ e ∈ finder.LocationLookup,
      ¬(ql - HALF_MILE_LAT ≤ e.2.Point.Lat ∧ e.2.Point.Lat ≤ ql + HALF_MILE_LAT ∧
        qg - HALF_MILE_LNG ≤ e.2.Point.Lng ∧ e.2.Point.Lng ≤ qg + HALF_MILE_LNG)) :
    finder.FindNear ⟨.fin ql, .fin qg⟩ = some ⟨⟨.fin ql, .fin qg⟩, []⟩ ∧
      SearchResult.ToJson ⟨⟨.fin ql, .fin qg⟩, []⟩ =
        "\x7b\"query\":\x7b\"lat\":" ++ formatFloat ql ++ ",\"lng\":" ++ formatFloat qg ++
          "\x7d,\"locations\":[]\x7d" := by
  constructor
  · obtain ⟨hWF, hshape⟩ := NewCrimeFinder_shape hbuild
    obtain ⟨res, hfn, hq, hperm⟩ := FindNear_mkFinder_perm hWF ⟨.fin ql, .fin qg⟩
    dsimp only at hperm
    have hfilter : (finder.LocationLookup.filter fun e =>
        inBox ⟨(GoFloat.fin ql).sub (.fin HALF_MILE_LAT),
            (GoFloat.fin ql).add (.fin HALF_MILE_LAT)⟩
          ⟨(GoFloat.fin qg).sub (.fin HALF_MILE_LNG),
            (GoFloat.fin qg).add (.fin HALF_MILE_LNG)⟩
          (e.2.Point.Lat, e.2.Point.Lng)) = [] := by
      rw [List.filter_eq_nil_iff]
      intro e he hbox
      exact hempty e he (by simpa using (inBox_finite_query ql qg _).mp (by simpa using hbox))
    rw [hfilter] at hperm
    simp only [List.map_nil] at hperm
    have hres : res = ⟨⟨.fin ql, .fin qg⟩, []⟩ := by
      obtain ⟨rq, rl⟩ := res
      dsimp only at hq hperm
      rw [hq, hperm.eq_nil]
    rw [← hres]
    conv_lhs => rw [hshape]
    exact hfn
  · simp [SearchResult.ToJson, locationsJson, GoFloat.format, String.append_assoc]

unseal Rat.mul Rat.add Rat.sub Rat.inv Rat.ofScientific in
/-- Witness for C7: the reference index queried far away returns the empty
shape. -/
theorem findNear_empty_box_ok_witness :
    (∀ e ∈ wFinder.LocationLookup,
      ¬((10 : ℚ) - HALF_MILE_LAT ≤ e.2.Point.Lat ∧ e.2.Point.Lat ≤ 10 + HALF_MILE_LAT ∧
        (10 : ℚ) - HALF_MILE_LNG ≤ e.2.Point.Lng ∧ e.2.Point.Lng ≤ 10 + HALF_MILE_LNG)) ∧
      (wFinder.FindNear ⟨.fin 10, .fin 10⟩ = some ⟨⟨.fin 10, .fin 10⟩, []⟩ ∧
        SearchResult.ToJson ⟨⟨.fin 10, .fin 10⟩, []⟩ =
          "\x7b\"query\":\x7b\"lat\":" ++ formatFloat 10 ++ ",\"lng\":" ++ formatFloat 10 ++
            "\x7d,\"locations\":[]\x7d") :=
  ⟨by decide, findNear_empty_box_ok [wRow] wFinder ["Loaded 1 crimes and 1 locations"]
    wBuild 10 10 (by decide)⟩

/-- C8: every coordinate stored in the built index resolves, through
`GetCoordinateKey` and the dedup table, back to the location carrying
exactly that coordinate: the index and the table never disagree, the same
key derivation being applied at ingestion and at post-query lookup. -/
theorem index_resolves_to_table (rows : List CsvRow) (finder : CrimeFinder)
    (lg : List String) (hbuild : NewCrimeFinder rows = (.ok finder, lg))
    (t : KdTree) (ht : finder.Tree = some t) :
    ∀ p ∈ t.toList, ∃ loc,
      lookupKey (GetCoordinateKey p.1 p.2) finder.LocationLookup = some loc ∧
      loc.Point.Lat = p.1 ∧ loc.Point.Lng = p.2 ∧
      (GetCoordinateKey p.1 p.2, loc) ∈ finder.LocationLookup := by
  obtain ⟨hWF, hshape⟩ := NewCrimeFinder_shape hbuild
  have ht2 : t = BuildTree (finder.LocationLookup.map fun e =>
      (e.2.Point.Lat, e.2.Point.Lng)) := by
    have h2 : finder.Tree = some (BuildTree (finder.LocationLookup.map fun e =>
        (e.2.Point.Lat, e.2.Point.Lng))) := by
      conv_lhs => rw [hshape]
      rfl
    rw [ht] at h2
    exact Option.some.inj h2
  subst ht2
  intro p hp
  have hp2 := (BuildTree_toList _).mem_iff.mp hp
  obtain ⟨e, he, heq⟩ := List.mem_map.mp hp2
  refine ⟨e.2, ?_, ?_, ?_, ?_⟩
  · rw [← heq]
    exact tableWF_lookup_self hWF he
  · rw [← heq]
  · rw [← heq]
  · rw [← heq]
    have hk := hWF.2 e he
    simp only [hk]
    exact he

/-- The node list of the reference index. -/
def wNodes : List (ℚ × ℚ) := wTable.map fun e => (e.2.Point.Lat, e.2.Point.Lng)

unseal Rat.mul Rat.add Rat.sub Rat.inv Rat.ofScientific in
/-- Witness for C8 on the reference one-node index. -/
theorem index_resolves_to_table_witness :
    ((451 / 10 : ℚ), (-1223 / 10 : ℚ)) ∈ (BuildTree wNodes).toList ∧
    ∃ loc,
      lookupKey (GetCoordinateKey (451 / 10 : ℚ) (-1223 / 10 : ℚ))
        wFinder.LocationLookup = some loc ∧
      loc.Point.Lat = (451 / 10 : ℚ) ∧ loc.Point.Lng = (-1223 / 10 : ℚ) ∧
      (GetCoordinateKey (451 / 10 : ℚ) (-1223 / 10 : ℚ), loc) ∈ wFinder.LocationLookup :=
  ⟨by decide,
    index_resolves_to_table [wRow] wFinder ["Loaded 1 crimes and 1 locations"] wBuild
      (BuildTree wNodes) rfl ((451 / 10 : ℚ), (-1223 / 10 : ℚ)) (by decide)⟩

/-- C9: rebuilding from identical rows is deterministic up to the map
iteration order in which the kd-tree nodes are collected; for any such
order, the `FindNear` result lists at every query point are permutations of
each other (set-equal, order ignored). -/
theorem build_deterministic_up_to_order (rows : List CsvRow) (finder : CrimeFinder)
    (lg : List String) (hbuild : NewCrimeFinder rows = (.ok finder, lg))
    (nodes2 : List (ℚ × ℚ))
    (hperm2 : nodes2 ~ finder.LocationLookup.map fun e => (e.2.Point.Lat, e.2.Point.Lng))
    (q : QueryPoint) (res1 res2 : SearchResult)
    (h1 : finder.FindNear q = some res1)
    (h2 : CrimeFinder.FindNear ⟨finder.LocationLookup, finder.CrimeTypes,
      some (BuildTree nodes2)⟩ q = some res2) :
    res1.Locations ~ res2.Locations := by
  obtain ⟨hWF, hshape⟩ := NewCrimeFinder_shape hbuild
  have ht1 : finder.Tree = some (BuildTree (finder.LocationLookup.map fun e =>
      (e.2.Point.Lat, e.2.Point.Lng))) := by
    conv_lhs => rw [hshape]
    rfl
  have e1 := FindNear_some ht1 q
  rw [h1] at e1
  have e2 := @FindNear_some ⟨finder.LocationLookup, finder.CrimeTypes,
    some (BuildTree nodes2)⟩ (BuildTree nodes2) rfl q
  rw [h2] at e2
  rw [Option.some.inj e1, Option.some.inj e2]
  dsimp only
  refine Perm.filterMap _ ?_
  refine (BuildTree_findRange _ _ _).trans (Perm.trans ?_ (BuildTree_findRange _ _ _).symm)
  exact Perm.filter _ hperm2.symm

unseal Rat.mul Rat.add Rat.sub Rat.inv Rat.ofScientific in
/-- Evaluation of the reference query on the reference finder. -/
theorem wFind : wFinder.FindNear ⟨.fin (451 / 10), .fin (-1223 / 10)⟩ =
    some ⟨⟨.fin (451 / 10), .fin (-1223 / 10)⟩,
      [⟨⟨451 / 10, -1223 / 10⟩, [⟨1, "1/1/2013", "04:30", "Burglary"⟩]⟩]⟩ := by decide

/-- Witness for C9: the reference build queried under two identical node
orders. -/
theorem build_deterministic_up_to_order_witness :
    (SearchResult.Locations ⟨⟨.fin (451 / 10), .fin (-1223 / 10)⟩,
        [⟨⟨451 / 10, -1223 / 10⟩, [⟨1, "1/1/2013", "04:30", "Burglary"⟩]⟩]⟩) ~
      (SearchResult.Locations ⟨⟨.fin (451 / 10), .fin (-1223 / 10)⟩,
        [⟨⟨451 / 10, -1223 / 10⟩, [⟨1, "1/1/2013", "04:30", "Burglary"⟩]⟩]⟩) :=
  build_deterministic_up_to_order [wRow] wFinder ["Loaded 1 crimes and 1 locations"]
    wBuild (wTable.map fun e => (e.2.Point.Lat, e.2.Point.Lng)) (Perm.refl _)
    ⟨.fin (451 / 10), .fin (-1223 / 10)⟩ _ _ wFind wFind

/-- C10: row ingestion is total exactly for inputs whose rows all have at
least ten columns — for those the whole build succeeds — while a row with
fewer than ten columns makes the column access in `readCrimes` go out of
bounds: a panic, with no guard or error path for short rows. -/
theorem ingestion_requires_ten_columns :
    (∀ rows : List CsvRow, (∀ r ∈ rows, 10 ≤ r.length) →
      ∃ finder lg, NewCrimeFinder rows = (.ok finder, lg)) ∧
    readCrimes [shortRow] = .panic := by
  constructor
  · intro rows h
    rw [NewCrimeFinder, readCrimes_eq_filter rows h]
    dsimp only
    unfold loadFromCsv
    obtain ⟨out, lg0, hl⟩ := loadRows_total (rows.filter coordFilter)
      (fun r hr => h r (List.mem_of_mem_filter hr)) [] [] 0
    rw [hl]
    exact ⟨_, _, rfl⟩
  · decide

/-- Witness for C10 at a one-row well-formed input and the nine-column row. -/
theorem ingestion_requires_ten_columns_witness :
    (∀ r ∈ [wRow], 10 ≤ r.length) ∧
      (∃ finder lg, NewCrimeFinder [wRow] = (.ok finder, lg)) ∧
      readCrimes [shortRow] = .panic :=
  ⟨by decide, ingestion_requires_ten_columns.1 [wRow] (by decide),
    ingestion_requires_ten_columns.2⟩

end Radar
